import Mathlib

/-!
# shiplog: transcript-to-message pipeline

A shallow embedding of `internal/parser` (`filter.go`, `jsonl.go`, `types.go`),
of the tool label computed in `internal/render/html.go` and of
`internal/session/search.go`, with the properties of the content classifier,
the message extractors, the message builder, the metadata extractor, the tool
display names and the session search.

Go values are embedded as follows.

* `any` values produced by `json.Unmarshal` are values of `JSON`; a
  `map[string]any` is an association list read with `mapGet`, and a missing key
  reads as `JSON.null` (the nil interface), exactly as a Go map read does.
* Go strings decoded from JSON are valid UTF-8, so they are Lean `String`s and
  the byte-wise `strings.HasPrefix` / `strings.Contains` agree with the
  character-wise versions used here.
* nil slices and empty slices are both the empty list.
* a `*Message` that may be nil is an `Option Message`.
* functions of the Go standard library that the code calls are parameters of
  the embedding (`TimeAPI`, `unicode.ToUpper`, `strings.ToLower`); concrete
  inputs are evaluated on the models `goTime`, `asciiUpper` and `asciiLower`.
-/

namespace Shiplog

/-! ## Decoded JSON -/

/-- A value of Go type `any` as produced by `json.Unmarshal`: nil, bool,
float64 (kept as its literal, the pipeline never inspects numbers), string,
`[]any` or `map[string]any`. -/
inductive JSON where
  | null : JSON
  | bool (b : Bool) : JSON
  | num (literal : String) : JSON
  | str (s : String) : JSON
  | arr (items : List JSON) : JSON
  | obj (fields : List (String × JSON)) : JSON

/-- A raw record: `map[string]any`. -/
abbrev Record := List (String × JSON)

/-- Map read `m[k]`: the bound value, or nil when the key is absent. -/
def mapGet : List (String × JSON) → String → JSON
  | [], _ => JSON.null
  | (k, v) :: rest, key => if k = key then v else mapGet rest key

/-- Go `asString` (filter.go): the string behind an `any`, or the empty string. -/
def asString : JSON → String
  | JSON.str s => s
  | _ => ""

/-! ## Strings -/

/-- Go `unicode.IsSpace`. -/
def isSpace (c : Char) : Bool :=
  let n := c.toNat
  (9 ≤ n && n ≤ 13) || n == 32 || n == 133 || n == 160 || n == 5760 ||
  (8192 ≤ n && n ≤ 8202) || n == 8232 || n == 8233 || n == 8239 || n == 8287 ||
  n == 12288

/-- Drop trailing white space of a character list. -/
def trimRightChars (l : List Char) : List Char :=
  ((l.reverse).dropWhile isSpace).reverse

/-- Go `strings.TrimSpace`: leading and trailing white space removed. -/
def TrimSpace (s : String) : String :=
  String.mk (trimRightChars (s.data.dropWhile isSpace))

/-- Go `strings.HasPrefix s p`. -/
def startsWith (s p : String) : Bool :=
  p.data.isPrefixOf s.data

/-- Whether `sub` occurs in the character list at some position. -/
def containsChars : List Char → List Char → Bool
  | [], sub => sub.isEmpty
  | c :: cs, sub => sub.isPrefixOf (c :: cs) || containsChars cs sub

/-- Go `strings.Contains s sub`. -/
def strContains (s sub : String) : Bool :=
  containsChars s.data sub.data

/-! ## types.go -/

/-- Go `Image`. -/
structure Image where
  MediaType : String
  Data : String
  deriving DecidableEq, Repr

/-- Go `Message`. -/
structure Message where
  Role : String
  Texts : List String
  Images : List Image
  ToolUses : List String
  ToolNames : List String
  Timestamp : String
  deriving DecidableEq, Repr

/-! ## filter.go -/

/-- Go `systemPrefixes`. -/
def systemPrefixes : List String :=
  [ "<task-notification",
    "<local-command-",
    "<command-name>",
    "<command-message>",
    "[Request interrupted",
    "# Quick Plan",
    "<system-reminder>",
    "This session is being continued from a previous conversation" ]

/-- Go `isSystemContent`. -/
def isSystemContent (s : String) : Bool :=
  let trimmed := TrimSpace s
  if systemPrefixes.any (fun p => startsWith trimmed p) then true
  else if strContains trimmed "<local-command-" then true
  else false

/-- One iteration of the loop of `isOnlyToolResults` on the flag `hasNonTool`. -/
def onlyToolStep (hasNonTool : Bool) (block : JSON) : Bool :=
  match block with
  | JSON.obj b =>
    match mapGet b "type" with
    | JSON.str ty =>
      if ty = "text" then
        let text := TrimSpace (asString (mapGet b "text"))
        if text ≠ "" ∧ isSystemContent text = false then true else hasNonTool
      else if ty = "image" then true
      else hasNonTool
    | _ => hasNonTool
  | JSON.str b =>
    if TrimSpace b ≠ "" ∧ isSystemContent b = false then true else hasNonTool
  | _ => hasNonTool

/-- Go `isOnlyToolResults`. -/
def isOnlyToolResults (blocks : List JSON) : Bool :=
  if blocks.length = 0 then true
  else !(blocks.foldl onlyToolStep false)

/-! ## jsonl.go: extractors -/

/-- One iteration of the block loop of `extractUserMessage` on the pair
`(texts, images)`. -/
def userBlockStep (acc : List String × List Image) (block : JSON) :
    List String × List Image :=
  match block with
  | JSON.obj bm =>
    let ty := asString (mapGet bm "type")
    if ty = "text" then
      let text := TrimSpace (asString (mapGet bm "text"))
      if text ≠ "" ∧ isSystemContent text = false then (acc.1 ++ [text], acc.2) else acc
    else if ty = "image" then
      match mapGet bm "source" with
      | JSON.obj source =>
        if asString (mapGet source "type") = "base64" then
          let mediaType := asString (mapGet source "media_type")
          let mediaType := if mediaType = "" then "image/png" else mediaType
          (acc.1, acc.2 ++ [{ MediaType := mediaType, Data := asString (mapGet source "data") }])
        else acc
      | _ => acc
    else acc
  | _ => acc

/-- The tail of `extractUserMessage` after the switch on the content. -/
def userResult (texts : List String) (images : List Image) (timestamp : String) :
    Option Message :=
  if texts.length = 0 ∧ images.length = 0 then none
  else some { Role := "user", Texts := texts, Images := images, ToolUses := [],
              ToolNames := [], Timestamp := timestamp }

/-- Go `extractUserMessage`. -/
def extractUserMessage (entry : Record) : Option Message :=
  match mapGet entry "message" with
  | JSON.obj msg =>
    let content := mapGet msg "content"
    let timestamp := asString (mapGet entry "timestamp")
    match content with
    | JSON.str c =>
      if TrimSpace c = "" ∨ isSystemContent c = true then none
      else userResult [c] [] timestamp
    | JSON.arr c =>
      if isOnlyToolResults c = true then none
      else
        let acc := c.foldl userBlockStep ([], [])
        userResult acc.1 acc.2 timestamp
    | _ => none
  | _ => none

/-- One iteration of the block loop of `extractAssistantMessage` on the pair
`(texts, toolUses)`. -/
def assistantBlockStep (acc : List String × List String) (block : JSON) :
    List String × List String :=
  match block with
  | JSON.obj bm =>
    let blockType := asString (mapGet bm "type")
    if blockType = "text" then
      let text := TrimSpace (asString (mapGet bm "text"))
      if text ≠ "" then (acc.1 ++ [text], acc.2) else acc
    else if blockType = "tool_use" then
      let name := asString (mapGet bm "name")
      let name := if name = "" then "unknown" else name
      (acc.1, acc.2 ++ [name])
    else acc
  | _ => acc

/-- Go `extractAssistantMessage`. -/
def extractAssistantMessage (entry : Record) : Option Message :=
  match mapGet entry "message" with
  | JSON.obj msg =>
    match mapGet msg "content" with
    | JSON.arr content =>
      let timestamp := asString (mapGet entry "timestamp")
      let acc := content.foldl assistantBlockStep ([], [])
      if acc.1.length = 0 ∧ acc.2.length = 0 then none
      else some { Role := "assistant", Texts := acc.1, Images := [], ToolUses := acc.2,
                  ToolNames := [], Timestamp := timestamp }
    | _ => none
  | _ => none

/-! ## jsonl.go: BuildMessages -/

/-- The two local variables of `BuildMessages`. -/
structure BuildState where
  messages : List Message
  pendingTools : List String
  deriving DecidableEq, Repr

/-- The closure `flushTools` of `BuildMessages`. -/
def flushTools (st : BuildState) : BuildState :=
  if st.pendingTools.length = 0 then st
  else
    { messages := st.messages ++
        [{ Role := "tool_group", Texts := [], Images := [], ToolUses := [],
           ToolNames := st.pendingTools, Timestamp := "" }],
      pendingTools := [] }

/-- One iteration of the loop of `BuildMessages`. -/
def buildStep (st : BuildState) (entry : Record) : BuildState :=
  let entryType := asString (mapGet entry "type")
  if entryType = "user" then
    match extractUserMessage entry with
    | none => st
    | some result =>
      let st1 := flushTools st
      { st1 with messages := st1.messages ++ [result] }
  else if entryType = "assistant" then
    match extractAssistantMessage entry with
    | none => st
    | some result =>
      if result.Texts.length > 0 then
        let st1 := flushTools st
        { st1 with messages := st1.messages ++ [result] }
      else if result.ToolUses.length > 0 then
        { st with pendingTools := st.pendingTools ++ result.ToolUses }
      else st
  else st

/-- Go `BuildMessages`. -/
def BuildMessages (entries : List Record) : List Message :=
  (flushTools (entries.foldl buildStep { messages := [], pendingTools := [] })).messages

/-! ## jsonl.go: ExtractMeta -/

/-- Go `SessionMeta`. -/
structure SessionMeta where
  Title : String
  DateRange : String
  Model : String
  deriving DecidableEq, Repr

/-- The part of the Go standard package `time` that `formatDate` calls, taken
as a parameter: `Parse layout value` (none when it returns an error) and
`Format t layout`. -/
structure TimeAPI where
  Time : Type
  Parse : String → String → Option Time
  Format : Time → String → String

/-- Go `time.RFC3339`. -/
def RFC3339 : String := "2006-01-02T15:04:05Z07:00"

/-- Go `time.RFC3339Nano`. -/
def RFC3339Nano : String := "2006-01-02T15:04:05.999999999Z07:00"

/-- Replace the first occurrence of the character `old` by the characters `new`. -/
def replaceFirstChar : List Char → Char → List Char → List Char
  | [], _, _ => []
  | c :: cs, old, new => if c = old then new ++ cs else c :: replaceFirstChar cs old new

/-- Go `formatDate`. -/
def formatDate (T : TimeAPI) (ts : String) : String :=
  if ts = "" then ""
  else
    let ts := String.mk (replaceFirstChar ts.data 'Z' "+00:00".data)
    match T.Parse RFC3339 ts with
    | some t => T.Format t "Jan 02, 2006"
    | none =>
      match T.Parse RFC3339Nano ts with
      | some t => T.Format t "Jan 02, 2006"
      | none => ""

/-- The local variables of the loop of `ExtractMeta`. -/
structure MetaState where
  title : String
  firstTS : String
  lastTS : String
  model : String
  deriving DecidableEq, Repr

/-- One iteration of the loop of `ExtractMeta`. -/
def metaStep (st : MetaState) (entry : Record) : MetaState :=
  let title :=
    if asString (mapGet entry "type") = "custom-title" then asString (mapGet entry "customTitle")
    else st.title
  let ts := asString (mapGet entry "timestamp")
  let ts :=
    if ts = "" then
      match mapGet entry "snapshot" with
      | JSON.obj snap => asString (mapGet snap "timestamp")
      | _ => ts
    else ts
  let firstTS := if ts ≠ "" then (if st.firstTS = "" then ts else st.firstTS) else st.firstTS
  let lastTS := if ts ≠ "" then ts else st.lastTS
  let model :=
    if st.model = "" ∧ asString (mapGet entry "type") = "assistant" then
      match mapGet entry "message" with
      | JSON.obj msg => asString (mapGet msg "model")
      | _ => st.model
    else st.model
  { title := title, firstTS := firstTS, lastTS := lastTS, model := model }

/-- Go `ExtractMeta`. -/
def ExtractMeta (T : TimeAPI) (entries : List Record) : SessionMeta :=
  let st := entries.foldl metaStep { title := "", firstTS := "", lastTS := "", model := "" }
  let startDate := formatDate T st.firstTS
  let endDate := formatDate T st.lastTS
  let dateRange :=
    if startDate ≠ "" ∧ endDate ≠ "" ∧ startDate ≠ endDate then startDate ++ " - " ++ endDate
    else if startDate ≠ "" then startDate
    else ""
  let modelDisplay := if st.model = "" then "Claude" else st.model
  let modelDisplay :=
    if strContains modelDisplay "opus" then "Claude Opus"
    else if strContains modelDisplay "sonnet" then "Claude Sonnet"
    else if strContains modelDisplay "haiku" then "Claude Haiku"
    else modelDisplay
  let title := if st.title = "" then "Untitled Session" else st.title
  { Title := title, DateRange := dateRange, Model := modelDisplay }

/-! ## Sample records -/

/-- A content block `type: text` with the given text. -/
def textBlock (t : String) : JSON :=
  JSON.obj [("type", JSON.str "text"), ("text", JSON.str t)]

/-- A content block `type: tool_use` with the given name. -/
def toolUseBlock (name : String) : JSON :=
  JSON.obj [("type", JSON.str "tool_use"), ("name", JSON.str name)]

/-- A content block `type: thinking`. -/
def thinkingBlock (t : String) : JSON :=
  JSON.obj [("type", JSON.str "thinking"), ("text", JSON.str t)]

/-- An assistant record with the given content blocks. -/
def assistantRecord (blocks : List JSON) : Record :=
  [("type", JSON.str "assistant"), ("message", JSON.obj [("content", JSON.arr blocks)])]

/-- A user record with string content and a timestamp. -/
def userTextRecord (c ts : String) : Record :=
  [("type", JSON.str "user"), ("message", JSON.obj [("content", JSON.str c)]),
   ("timestamp", JSON.str ts)]

/-- A record of a type the builder ignores. -/
def summaryRecord : Record :=
  [("type", JSON.str "summary"), ("summary", JSON.str "refactoring session")]

/-- An image block with a base64 source of the given fields. -/
def imageBlock (sourceFields : List (String × JSON)) : JSON :=
  JSON.obj [("type", JSON.str "image"),
    ("source", JSON.obj (("type", JSON.str "base64") :: sourceFields))]

/-- A user record with list content and a timestamp. -/
def userBlocksRecord (blocks : List JSON) (ts : String) : Record :=
  [("type", JSON.str "user"), ("message", JSON.obj [("content", JSON.arr blocks)]),
   ("timestamp", JSON.str ts)]

/-- Two consecutive tool-only assistant records, with tool names `Bash` and
then `Grep`, `Edit`. -/
def sampleToolRun : List Record :=
  [assistantRecord [toolUseBlock "Bash"],
   assistantRecord [toolUseBlock "Grep", toolUseBlock "Edit"]]

/-- An assistant record with a thinking block and one tool use. -/
def sampleThinkingRead : Record :=
  assistantRecord [thinkingBlock "...", toolUseBlock "Read"]

/-- A user record with plain text. -/
def sampleUserHello : Record := userTextRecord "hello" "2024-01-01T10:00:00Z"

/-- The message extracted from `sampleUserHello`. -/
def sampleHelloMessage : Message :=
  { Role := "user", Texts := ["hello"], Images := [], ToolUses := [], ToolNames := [],
    Timestamp := "2024-01-01T10:00:00Z" }

/-- A session with two tool groups around a user turn and an ignored record
inside the first group. -/
def sampleSession : List Record :=
  [assistantRecord [toolUseBlock "Bash"], summaryRecord,
   assistantRecord [toolUseBlock "Grep", toolUseBlock "Edit"],
   sampleUserHello, sampleThinkingRead]

/-- The block list of a user turn with text, system noise, a tool result, a
plain string and two images. -/
def sampleUserBlocks : List JSON :=
  [textBlock "  look at this  ",
   textBlock "<system-reminder>x</system-reminder>",
   JSON.obj [("type", JSON.str "tool_result"), ("content", JSON.str "ok")],
   JSON.str "loose string",
   imageBlock [("data", JSON.str "iVBORw0KGgo=")],
   imageBlock [("media_type", JSON.str "image/jpeg"), ("data", JSON.str "/9j/4AAQ")],
   JSON.obj [("type", JSON.str "image"), ("source", JSON.obj [("type", JSON.str "url")])]]

/-- The block list of an assistant turn with system-looking text, a thinking
block, a named tool use and a tool use without a name. -/
def sampleAssistantBlocks : List JSON :=
  [textBlock "<system-reminder>x</system-reminder>",
   thinkingBlock "hmm",
   toolUseBlock "Read",
   JSON.obj [("type", JSON.str "tool_use"), ("name", JSON.num "7")],
   textBlock "   "]

/-- An assistant record whose content is a string. -/
def sampleAssistantString : Record :=
  [("type", JSON.str "assistant"), ("message", JSON.obj [("content", JSON.str "hello")])]

/-! ## Per-record view of the builder loop (used in the statements and proofs) -/

/-- The type discriminator of a record, `asString(entry["type"])`. -/
def entryType (e : Record) : String := asString (mapGet e "type")

/-- The message that a record puts into the output as a message of its own:
the extraction of a user record, or the extraction of an assistant record when
it has non-empty `Texts`. -/
def ownMessage (e : Record) : Option Message :=
  if entryType e = "user" then extractUserMessage e
  else if entryType e = "assistant" then
    match extractAssistantMessage e with
    | some m => if m.Texts.length > 0 then some m else none
    | none => none
  else none

/-- The tool names that a record adds to the pending buffer: the `ToolUses` of
the extraction of an assistant record when it has empty `Texts`. -/
def pendingNames (e : Record) : List String :=
  if entryType e = "assistant" then
    match extractAssistantMessage e with
    | some m => if m.Texts.length > 0 then [] else m.ToolUses
    | none => []
  else []

/-- The tool_group message made from a buffer of tool names. -/
def toolGroup (names : List String) : Message :=
  { Role := "tool_group", Texts := [], Images := [], ToolUses := [],
    ToolNames := names, Timestamp := "" }

/-- The messages a flush of the buffer `p` appends. -/
def flushed (p : List String) : List Message :=
  if p.length = 0 then [] else [toolGroup p]

/-- The messages appended by the loop and the final flush, started with the
pending buffer `p`. -/
def run : List String → List Record → List Message
  | p, [] => flushed p
  | p, e :: es =>
    match ownMessage e with
    | some m => flushed p ++ m :: run [] es
    | none => run (p ++ pendingNames e) es

/-- The `ToolUses` list of the extraction of an assistant record (empty when
the extractor yields nothing). -/
def toolUsesOf (e : Record) : List String :=
  match extractAssistantMessage e with
  | some m => m.ToolUses
  | none => []

/-- A tool-only assistant record: an assistant record whose extraction has no
text and at least one tool name. -/
def isToolOnly (e : Record) : Bool :=
  decide (entryType e = "assistant") &&
  match extractAssistantMessage e with
  | some m => m.Texts.isEmpty && !m.ToolUses.isEmpty
  | none => false

/-- A flush point: a record that is emitted as a user message or as a
text-bearing assistant message. -/
def isFlushPoint (e : Record) : Bool := (ownMessage e).isSome

/-- A record contributes when it is a user record or an assistant record for
which the extractor yields a message. -/
def contributes (e : Record) : Bool :=
  (decide (entryType e = "user") && (extractUserMessage e).isSome) ||
  (decide (entryType e = "assistant") && (extractAssistantMessage e).isSome)

/-- Whether a message is not a tool_group. -/
def notToolGroup (m : Message) : Bool := decide (m.Role ≠ "tool_group")

/-! ## Block lists as the extractor contracts describe them (compared with the loops below) -/

/-- Whether a decoded value is a mapping. -/
def isMapping : JSON → Bool
  | JSON.obj _ => true
  | _ => false

/-- Whether a decoded value is a list. -/
def isList : JSON → Bool
  | JSON.arr _ => true
  | _ => false

/-- Whether a decoded value is a string. -/
def isString : JSON → Bool
  | JSON.str _ => true
  | _ => false

/-- Whether a decoded value is the string `s`. -/
def isStringValue (v : JSON) (s : String) : Bool :=
  match v with
  | JSON.str t => decide (t = s)
  | _ => false

/-- The field `k` of a value that is a mapping; nil for an absent field and for
a value that is not a mapping. -/
def blockField (v : JSON) (k : String) : JSON :=
  match v with
  | JSON.obj m => mapGet m k
  | _ => JSON.null

/-- A block of type `ty`: a mapping whose `type` field is the string `ty`. -/
def isBlockOfType (ty : String) (b : JSON) : Bool :=
  isMapping b && isStringValue (blockField b "type") ty

/-- The whitespace-trimmed text of a block. -/
def trimmedText (b : JSON) : String :=
  TrimSpace (asString (blockField b "text"))

/-- The texts of a user block list: in block order, the trimmed text of the
text blocks whose trimmed text is non-empty and not system content. -/
def userTexts (blocks : List JSON) : List String :=
  ((blocks.filter (isBlockOfType "text")).map trimmedText).filter
    (fun t => decide (t ≠ "") && !isSystemContent t)

/-- An image block whose `source` is a mapping with `type` "base64". -/
def isBase64Image (b : JSON) : Bool :=
  isBlockOfType "image" b && isMapping (blockField b "source") &&
    isStringValue (blockField (blockField b "source") "type") "base64"

/-- The media type of an image: the `media_type` string, or "image/png" when it
is absent or empty. -/
def mediaTypeOf (v : JSON) : String :=
  match v with
  | JSON.str s => if s = "" then "image/png" else s
  | _ => "image/png"

/-- The image of an image block: media type and payload of its source. -/
def imageOf (b : JSON) : Image :=
  { MediaType := mediaTypeOf (blockField (blockField b "source") "media_type"),
    Data := asString (blockField (blockField b "source") "data") }

/-- The images of a user block list: in block order, one image per base64
image block. -/
def userImages (blocks : List JSON) : List Image :=
  (blocks.filter isBase64Image).map imageOf

/-- The texts of an assistant block list: in block order, the trimmed text of
the text blocks whose trimmed text is non-empty. -/
def assistantTexts (blocks : List JSON) : List String :=
  ((blocks.filter (isBlockOfType "text")).map trimmedText).filter (fun t => decide (t ≠ ""))

/-- The tool name of a tool_use block: its `name`, or "unknown" when the name
is absent, not a string or empty. -/
def toolNameOf (b : JSON) : String :=
  match blockField b "name" with
  | JSON.str s => if s = "" then "unknown" else s
  | _ => "unknown"

/-- The tool names of an assistant block list: in block order, the name of
every tool_use block. -/
def assistantTools (blocks : List JSON) : List String :=
  (blocks.filter (isBlockOfType "tool_use")).map toolNameOf

/-! ## A model of the calls into the Go standard package `time`

`formatDate` calls `time.Parse` with the layouts `RFC3339` and `RFC3339Nano`
and `Time.Format` with the layout "Jan 02, 2006". These are modelled from the
documented behaviour of the standard library: the parser reads a four-digit
year, two-digit month and day, `T`, a one- or two-digit hour, two-digit minute
and second, an optional fraction (`.` or `,` and digits) and a zone that is `Z`
or a signed `hh:mm` offset, with the range checks of the library; the formatter
prints the civil date of the parsed value in its own zone. -/

/-- A parsed time: its civil date and clock in the parsed zone, and the zone
offset in seconds. -/
structure GoTime where
  year : Nat
  month : Nat
  day : Nat
  hour : Nat
  minute : Nat
  second : Nat
  offset : Int
  deriving DecidableEq, Repr

/-- An ASCII decimal digit. -/
def isDigit (c : Char) : Bool := 48 ≤ c.toNat && c.toNat ≤ 57

/-- The value of an ASCII decimal digit. -/
def digitVal (c : Char) : Nat := c.toNat - 48

/-- The library helper `getnum`: a two-digit number, or a one-digit number when
`fixed` is false and no second digit follows. -/
def getnum (s : List Char) (fixed : Bool) : Option (Nat × List Char) :=
  match s with
  | [] => none
  | c1 :: rest =>
    if isDigit c1 then
      match rest with
      | [] => if fixed then none else some (digitVal c1, [])
      | c2 :: rest2 =>
        if isDigit c2 then some (digitVal c1 * 10 + digitVal c2, rest2)
        else if fixed then none else some (digitVal c1, rest)
    else none

/-- Match one literal character of the layout. -/
def skipChar (c : Char) (s : List Char) : Option (List Char) :=
  match s with
  | [] => none
  | x :: rest => if x = c then some rest else none

/-- The four-digit year of the layout element `2006`. -/
def parseYear (s : List Char) : Option (Nat × List Char) :=
  match s with
  | a :: b :: c :: d :: rest =>
    if isDigit a && isDigit b && isDigit c && isDigit d then
      some (digitVal a * 1000 + digitVal b * 100 + digitVal c * 10 + digitVal d, rest)
    else none
  | _ => none

/-- An optional fractional second: `.` or `,` followed by at least one digit;
all following digits are consumed. -/
def skipFraction (s : List Char) : List Char :=
  match s with
  | p :: d :: rest =>
    if (p = '.' ∨ p = ',') ∧ isDigit d = true then rest.dropWhile isDigit else s
  | _ => s

/-- The layout element `Z07:00`: `Z`, or a sign, two-digit hours (at most 24),
a colon and two-digit minutes (at most 60). The result is the offset in
seconds. -/
def parseZone (s : List Char) : Option (Int × List Char) :=
  match s with
  | [] => none
  | z :: zrest =>
    if z = 'Z' then some (0, zrest)
    else
      match s with
      | sign :: h1 :: h2 :: colon :: m1 :: m2 :: rest =>
        if colon = ':' then
          match getnum [h1, h2] true, getnum [m1, m2] true with
          | some (hr, _), some (mm, _) =>
            if hr > 24 ∨ mm > 60 then none
            else if sign = '+' then some (((hr * 60 + mm) * 60 : Nat), rest)
            else if sign = '-' then some (- (((hr * 60 + mm) * 60 : Nat) : Int), rest)
            else none
          | _, _ => none
        else none
      | _ => none

/-- Leap years of the proleptic Gregorian calendar. -/
def isLeap (year : Nat) : Bool :=
  year % 4 == 0 && (year % 100 != 0 || year % 400 == 0)

/-- The library helper `daysIn`. -/
def daysIn (month year : Nat) : Nat :=
  if month = 2 then (if isLeap year then 29 else 28)
  else if month = 4 ∨ month = 6 ∨ month = 9 ∨ month = 11 then 30
  else 31

/-- The date part `2006-01-02` of the layout: year, month (1 to 12) and a
two-digit day (validated against the month at the end of parsing). -/
def parseDate (value : List Char) : Option (Nat × Nat × Nat × List Char) :=
  match parseYear value with
  | none => none
  | some (year, v) =>
    match skipChar '-' v with
    | none => none
    | some v =>
      match getnum v true with
      | none => none
      | some (month, v) =>
        if month = 0 ∨ 12 < month then none
        else
          match skipChar '-' v with
          | none => none
          | some v =>
            match getnum v true with
            | none => none
            | some (day, v) => some (year, month, day, v)

/-- The clock part `15:04:05` of the layout: a one- or two-digit hour below 24,
two-digit minute and second below 60. -/
def parseClock (value : List Char) : Option (Nat × Nat × Nat × List Char) :=
  match getnum value false with
  | none => none
  | some (hour, v) =>
    if 24 ≤ hour then none
    else
      match skipChar ':' v with
      | none => none
      | some v =>
        match getnum v true with
        | none => none
        | some (minute, v) =>
          if 60 ≤ minute then none
          else
            match skipChar ':' v with
            | none => none
            | some v =>
              match getnum v true with
              | none => none
              | some (second, v) =>
                if 60 ≤ second then none else some (hour, minute, second, v)

/-- Model of `time.Parse` for the layouts `RFC3339` and `RFC3339Nano` (both
accept the same values, the fraction being optional in either). -/
def parseRFC3339 (value : List Char) : Option GoTime :=
  match parseDate value with
  | none => none
  | some (year, month, day, v) =>
    match skipChar 'T' v with
    | none => none
    | some v =>
      match parseClock v with
      | none => none
      | some (hour, minute, second, v) =>
        match parseZone (skipFraction v) with
        | none => none
        | some (offset, v) =>
          if v ≠ [] then none
          else if day < 1 ∨ day > daysIn month year then none
          else some { year := year, month := month, day := day, hour := hour,
                      minute := minute, second := second, offset := offset }

/-- The month abbreviations of `Time.Format`. -/
def monthAbbrev (month : Nat) : String :=
  (["Jan", "Feb", "Mar", "Apr", "May", "Jun", "Jul", "Aug", "Sep", "Oct", "Nov", "Dec"].get?
    (month - 1)).getD ""

/-- The decimal digit character of a number below ten. -/
def digitChar (d : Nat) : Char := Char.ofNat (48 + d % 10)

/-- Model of `Time.Format` with the layout "Jan 02, 2006": month abbreviation,
zero-padded day and four-digit year of the civil date. -/
def formatJan02 (t : GoTime) : String :=
  monthAbbrev t.month ++ " " ++
    String.mk [digitChar (t.day / 10), digitChar t.day] ++ ", " ++
    String.mk [digitChar (t.year / 1000), digitChar (t.year / 100), digitChar (t.year / 10),
      digitChar t.year]

/-- The model of the `time` package passed to `formatDate`. Layouts that
`formatDate` never uses are not modelled. -/
def goTime : TimeAPI where
  Time := GoTime
  Parse := fun layout value =>
    if layout = RFC3339 ∨ layout = RFC3339Nano then parseRFC3339 value.data else none
  Format := fun t layout => if layout = "Jan 02, 2006" then formatJan02 t else ""

/-! ## The selections of `ExtractMeta`, as its contract describes them -/

/-- The effective timestamp of a record: its non-empty `timestamp` string, or
else its `snapshot.timestamp`. -/
def effectiveTimestamp (e : Record) : String :=
  if asString (mapGet e "timestamp") ≠ "" then asString (mapGet e "timestamp")
  else asString (blockField (mapGet e "snapshot") "timestamp")

/-- The non-empty effective timestamps of the records, in order. -/
def timestamps (es : List Record) : List String :=
  (es.map effectiveTimestamp).filter (fun t => decide (t ≠ ""))

/-- The start timestamp: the first non-empty effective timestamp, or the empty
string when there is none. -/
def startTimestamp (es : List Record) : String := ((timestamps es).head?).getD ""

/-- The end timestamp: the last non-empty effective timestamp by position, or
the empty string when there is none. -/
def endTimestamp (es : List Record) : String := ((timestamps es).getLast?).getD ""

/-- The non-empty `message.model` strings of the assistant records, in order. -/
def assistantModels (es : List Record) : List String :=
  ((es.filter (fun e => decide (entryType e = "assistant"))).map
    (fun e => asString (blockField (mapGet e "message") "model"))).filter
    (fun m => decide (m ≠ ""))

/-- The model string of the first assistant record that has a non-empty one,
or the empty string when there is none. -/
def firstModel (es : List Record) : String := ((assistantModels es).head?).getD ""

/-- The `customTitle` strings of the records of type "custom-title", in order. -/
def customTitles (es : List Record) : List String :=
  (es.filter (fun e => decide (entryType e = "custom-title"))).map
    (fun e => asString (mapGet e "customTitle"))

/-- A record that carries only a timestamp. -/
def timestampRecord (ts : String) : Record :=
  [("type", JSON.str "user"), ("timestamp", JSON.str ts)]

/-- An assistant record with the given model string. -/
def modelRecord (model : String) : Record :=
  [("type", JSON.str "assistant"), ("message", JSON.obj [("model", JSON.str model)])]

/-- A custom-title record. -/
def titleRecord (title : String) : Record :=
  [("type", JSON.str "custom-title"), ("customTitle", JSON.str title)]


/-- A session whose first assistant model string names two model families. -/
def sampleMixedModel : List Record :=
  [timestampRecord "2024-01-01T10:00:00Z", modelRecord "", modelRecord "opus-or-sonnet",
   modelRecord "claude-haiku"]

/-- A session whose first non-empty assistant model string is a sonnet model. -/
def sampleSonnetModel : List Record :=
  [timestampRecord "2024-01-01T10:00:00Z", modelRecord "", modelRecord "claude-sonnet-4",
   modelRecord "claude-opus-4"]

/-- A session whose last custom-title record has an empty title. -/
def sampleEmptyTitle : List Record := [titleRecord "Refactor parser", titleRecord ""]

/-- A session with two custom-title records. -/
def sampleTwoTitles : List Record :=
  [titleRecord "Refactor parser", timestampRecord "2024-01-01T10:00:00Z",
   titleRecord "Fix date range"]

/-- A session that starts and ends on the same calendar day. -/
def sampleSameDay : List Record :=
  [timestampRecord "2024-01-01T10:00:00Z", summaryRecord,
   timestampRecord "2024-01-01T15:00:00Z"]

/-- A session that ends on a later day; the last timestamp is a snapshot
timestamp. -/
def sampleTwoDays : List Record :=
  [timestampRecord "2024-01-01T10:00:00Z",
   [("type", JSON.str "file-history-snapshot"),
    ("snapshot", JSON.obj [("timestamp", JSON.str "2024-01-03T09:30:00.250Z")])]]

/-- A session whose last timestamp cannot be parsed. -/
def sampleBadEnd : List Record :=
  [timestampRecord "2024-01-01T10:00:00Z", timestampRecord "not a date"]

/-- A session whose first timestamp cannot be parsed. -/
def sampleBadStart : List Record :=
  [timestampRecord "not a date", timestampRecord "2024-01-01T10:00:00Z"]


/-! ## filter.go: tool display names -/

/-- Go `toolDisplayNames`. -/
def toolDisplayNames : List (String × String) :=
  [ ("Read", "Read file"),
    ("Write", "Write file"),
    ("Edit", "Edit file"),
    ("Bash", "Run command"),
    ("Glob", "Search files"),
    ("Grep", "Search content"),
    ("WebSearch", "Web search"),
    ("WebFetch", "Fetch URL"),
    ("Task", "Run agent"),
    ("Skill", "Run skill"),
    ("TaskCreate", "Create task"),
    ("TaskUpdate", "Update task"),
    ("TaskList", "List tasks"),
    ("TaskGet", "Get task"),
    ("NotebookEdit", "Edit notebook"),
    ("mcp__context7__resolve-library-id", "Lookup docs"),
    ("mcp__context7__query-docs", "Query docs") ]

/-- Map read in the comma-ok form, `label, ok := table[key]`. -/
def lookupLabel : List (String × String) → String → Option String
  | [], _ => none
  | (k, v) :: rest, key => if k = key then some v else lookupLabel rest key

/-- Go `strings.Split(s, "__")` on the characters of `s`: the segments between
the successive leftmost occurrences of the separator; `cur` holds the
characters of the current segment in reverse. -/
def splitUnderscoresAux : List Char → List Char → List (List Char)
  | cur, [] => [cur.reverse]
  | cur, [c] => [(c :: cur).reverse]
  | cur, c1 :: c2 :: rest =>
    if c1 = '_' ∧ c2 = '_' then cur.reverse :: splitUnderscoresAux [] rest
    else splitUnderscoresAux (c1 :: cur) (c2 :: rest)

/-- Go `strings.Split(name, "__")`. -/
def splitUnderscores (name : String) : List String :=
  (splitUnderscoresAux [] name.data).map String.mk

/-- Go `strings.NewReplacer("-", " ", "_", " ").Replace`. -/
def replaceDashUnderscore (s : String) : String :=
  String.mk (s.data.map (fun c => if c = '-' ∨ c = '_' then ' ' else c))

/-- Go `strings.ReplaceAll(s, "_", " ")`. -/
def replaceUnderscore (s : String) : String :=
  String.mk (s.data.map (fun c => if c = '_' then ' ' else c))

/-- One call of the closure that `titleCase` passes to `strings.Map`: the state
is the captured variable `prev` and the output so far; `up` is
`unicode.ToUpper`. -/
def titleCaseStep (up : Char → Char) (st : Char × List Char) (r : Char) : Char × List Char :=
  if isSpace st.1 = true ∨ st.1 = ' ' then (r, st.2 ++ [up r])
  else (r, st.2 ++ [r])

/-- Go `titleCase`; the standard library function `unicode.ToUpper` is the
parameter `up`. -/
def titleCase (up : Char → Char) (s : String) : String :=
  String.mk (s.data.foldl (titleCaseStep up) (' ', [])).2

/-- Go `ToolDisplayName`; `up` is `unicode.ToUpper`. -/
def ToolDisplayName (up : Char → Char) (name : String) : String :=
  match lookupLabel toolDisplayNames name with
  | some label => label
  | none =>
    if startsWith name "mcp__" = true ∧ (splitUnderscores name).length ≥ 3 then
      titleCase up (replaceDashUnderscore (((splitUnderscores name).getLast?).getD ""))
    else titleCase up (replaceUnderscore name)

/-- The function `unicode.ToUpper` on ASCII characters (other characters are
left unchanged); used to evaluate `titleCase` on ASCII names. -/
def asciiUpper (c : Char) : Char :=
  if 97 ≤ c.toNat ∧ c.toNat ≤ 122 then Char.ofNat (c.toNat - 32) else c

/-! ## render/html.go: the tool label -/

/-- Go `fmt.Sprintf("%d tool actions performed", n)`. -/
def toolActionsLabel (n : Nat) : String := Nat.repr n ++ " tool actions performed"

/-- The field `ToolLabel` of the template message that `Generate` builds for
`msg`: set in the "tool_group" case of the switch on the role, the zero value
otherwise. -/
def toolLabel (up : Char → Char) (msg : Message) : String :=
  if msg.Role = "tool_group" then
    if msg.ToolNames.length = 1 then ToolDisplayName up (msg.ToolNames.headD "")
    else if msg.ToolNames.length > 1 then toolActionsLabel msg.ToolNames.length
    else ""
  else ""

/-! ## session/search.go -/

/-- Go `SessionInfo`. -/
structure SessionInfo where
  Title : String
  SessionID : String
  Project : String
  ProjectDir : String
  FilePath : String
  Timestamp : String
  deriving DecidableEq, Repr

/-- Go `FindByQuery`; the standard library function `strings.ToLower` is the
parameter `lower`. The result pair is the match (nil as `none`) and the
ambiguity list (nil as the empty list). -/
def FindByQuery (lower : String → String) (sessions : List SessionInfo) (query : String) :
    Option SessionInfo × List SessionInfo :=
  let q := lower (TrimSpace query)
  match sessions.find? (fun s => decide (lower s.Title = q)) with
  | some s => (some s, [])
  | none =>
    match sessions.find? (fun s => startsWith (lower s.SessionID) q) with
    | some s => (some s, [])
    | none =>
      let titleMatches := sessions.filter (fun s => strContains (lower s.Title) q)
      if titleMatches.length = 1 then (titleMatches.head?, [])
      else if titleMatches.length > 1 then (none, titleMatches)
      else
        let projMatches := sessions.filter (fun s => strContains (lower s.Project) q)
        if projMatches.length = 1 then (projMatches.head?, [])
        else if projMatches.length > 1 then (none, projMatches)
        else (none, [])

/-- The function `strings.ToLower` on ASCII strings (other characters are left
unchanged); used to evaluate `FindByQuery` on ASCII sessions. -/
def asciiLower (s : String) : String := String.mk (s.data.map Char.toLower)

/-- A session with the given title, identifier and project. -/
def sampleInfo (title id project : String) : SessionInfo :=
  { Title := title, SessionID := id, Project := project, ProjectDir := "", FilePath := "",
    Timestamp := "" }

/-- Two sessions with the same title up to letter case and with identifiers that
share their first characters. -/
def sampleSessions : List SessionInfo :=
  [sampleInfo "Deploy" "a1b2c3d4-1111-4111-8111-111111111111" "Users/dev/projects/api",
   sampleInfo "deploy" "a1b2ffff-2222-4222-8222-222222222222" "Users/dev/projects/web"]


/-! ## extractUserMessage without the tool-result guard -/

/-- The variant of `extractUserMessage` that skips the `isOnlyToolResults`
check on a block list and decides only by the final test that both the text
list and the image list are empty. It is compared with `extractUserMessage`
below. -/
def extractUserMessageNoGuard (entry : Record) : Option Message :=
  match mapGet entry "message" with
  | JSON.obj msg =>
    let content := mapGet msg "content"
    let timestamp := asString (mapGet entry "timestamp")
    match content with
    | JSON.str c =>
      if TrimSpace c = "" ∨ isSystemContent c = true then none
      else userResult [c] [] timestamp
    | JSON.arr c =>
      let acc := c.foldl userBlockStep ([], [])
      userResult acc.1 acc.2 timestamp
    | _ => none
  | _ => none

/-- Whether a message is a tool_group. -/
def isToolGroupMessage (m : Message) : Bool := decide (m.Role = "tool_group")

/-- A user record whose blocks are tool results and system noise only. -/
def sampleToolResultBlocks : List JSON :=
  [JSON.obj [("type", JSON.str "tool_result"), ("content", JSON.str "ok")],
   textBlock "<system-reminder>x</system-reminder>",
   textBlock "   "]


/-! ## Lemmas on the builder loop -/

theorem flushTools_messages (st : BuildState) :
    (flushTools st).messages = st.messages ++ flushed st.pendingTools := by
  unfold flushTools flushed
  split <;> simp [toolGroup]

theorem flushTools_pending (st : BuildState) : (flushTools st).pendingTools = [] := by
  unfold flushTools
  split
  · rename_i h
    exact List.length_eq_zero.mp h
  · rfl

theorem buildStep_own (st : BuildState) (e : Record) (m : Message)
    (h : ownMessage e = some m) :
    buildStep st e =
      { messages := st.messages ++ flushed st.pendingTools ++ [m], pendingTools := [] } := by
  unfold ownMessage at h
  unfold buildStep
  simp only [entryType] at h
  by_cases hu : asString (mapGet e "type") = "user"
  · simp only [hu, if_true] at h ⊢
    simp [h, flushTools_messages, flushTools_pending]
  · by_cases ha : asString (mapGet e "type") = "assistant"
    · have hau : ¬ ("assistant" = "user") := by decide
      simp only [ha, hau, if_false, if_true] at h ⊢
      cases hx : extractAssistantMessage e with
      | none => simp [hx] at h
      | some r =>
        simp only [hx] at h ⊢
        by_cases ht : r.Texts.length > 0
        · simp only [ht, if_true, Option.some.injEq] at h ⊢
          subst h
          simp [flushTools_messages, flushTools_pending]
        · simp [ht] at h
    · simp [hu, ha] at h

theorem buildStep_pending (st : BuildState) (e : Record) (h : ownMessage e = none) :
    buildStep st e = { st with pendingTools := st.pendingTools ++ pendingNames e } := by
  unfold ownMessage at h
  unfold buildStep pendingNames
  simp only [entryType] at h ⊢
  by_cases hu : asString (mapGet e "type") = "user"
  · have hne : ¬ ("user" = "assistant") := by decide
    simp only [hu, if_true] at h ⊢
    simp [h, hne]
  · by_cases ha : asString (mapGet e "type") = "assistant"
    · have hau : ¬ ("assistant" = "user") := by decide
      simp only [ha, hau, if_false, if_true] at h ⊢
      cases hx : extractAssistantMessage e with
      | none => simp
      | some r =>
        simp only [hx] at h ⊢
        by_cases ht : r.Texts.length > 0
        · simp [ht] at h
        · simp only [ht, if_false]
          by_cases hl : r.ToolUses.length > 0
          · simp [hl]
          · have : r.ToolUses = [] := by
              cases hr : r.ToolUses with
              | nil => rfl
              | cons a l => simp [hr] at hl
            simp [this]
    · simp [hu, ha]

theorem foldl_buildStep (es : List Record) (st : BuildState) :
    (flushTools (es.foldl buildStep st)).messages = st.messages ++ run st.pendingTools es := by
  induction es generalizing st with
  | nil => simp [run, flushTools_messages]
  | cons e es ih =>
    rw [List.foldl_cons, ih]
    cases h : ownMessage e with
    | some m => simp [run, h, buildStep_own st e m h]
    | none => simp [run, h, buildStep_pending st e h]

theorem BuildMessages_eq_run (es : List Record) : BuildMessages es = run [] es := by
  unfold BuildMessages
  rw [foldl_buildStep]
  rfl

/-! ## Shape of extracted messages -/

theorem userResult_some {t : List String} {i : List Image} {ts : String} {m : Message}
    (h : userResult t i ts = some m) :
    m = { Role := "user", Texts := t, Images := i, ToolUses := [], ToolNames := [],
          Timestamp := ts } ∧ (t ≠ [] ∨ i ≠ []) := by
  unfold userResult at h
  split at h
  · simp at h
  · rename_i hne
    simp only [Option.some.injEq] at h
    refine ⟨h.symm, ?_⟩
    by_contra hc
    push_neg at hc
    exact hne (by simp [hc.1, hc.2])

theorem extractUserMessage_some {e : Record} {m : Message}
    (h : extractUserMessage e = some m) :
    m.Role = "user" ∧ (m.Texts ≠ [] ∨ m.Images ≠ []) ∧ m.ToolUses = [] ∧ m.ToolNames = [] := by
  unfold extractUserMessage at h
  split at h
  · dsimp only at h
    split at h
    · split at h
      · simp at h
      · obtain ⟨hm, hne⟩ := userResult_some h
        subst hm
        exact ⟨rfl, hne, rfl, rfl⟩
    · split at h
      · simp at h
      · obtain ⟨hm, hne⟩ := userResult_some h
        subst hm
        exact ⟨rfl, hne, rfl, rfl⟩
    · simp at h
  · simp at h

theorem extractAssistantMessage_some {e : Record} {m : Message}
    (h : extractAssistantMessage e = some m) :
    m.Role = "assistant" ∧ (m.Texts ≠ [] ∨ m.ToolUses ≠ []) ∧ m.Images = [] ∧
      m.ToolNames = [] := by
  unfold extractAssistantMessage at h
  split at h
  · split at h
    · dsimp only at h
      split at h
      · simp at h
      · rename_i hne
        simp only [Option.some.injEq] at h
        subst h
        refine ⟨rfl, ?_, rfl, rfl⟩
        by_contra hc
        push_neg at hc
        dsimp only at hc
        exact hne (by simp [hc.1, hc.2])
    · simp at h
  · simp at h

theorem ownMessage_some {e : Record} {m : Message} (h : ownMessage e = some m) :
    (entryType e = "user" ∧ extractUserMessage e = some m ∧ m.Role = "user" ∧
        (m.Texts ≠ [] ∨ m.Images ≠ [])) ∨
    (entryType e = "assistant" ∧ extractAssistantMessage e = some m ∧ m.Role = "assistant" ∧
        m.Texts ≠ []) := by
  unfold ownMessage at h
  by_cases hu : entryType e = "user"
  · simp only [hu, if_true] at h
    have := extractUserMessage_some h
    exact Or.inl ⟨hu, h, this.1, this.2.1⟩
  · by_cases ha : entryType e = "assistant"
    · have hau : ¬ ("assistant" = "user") := by decide
      simp only [ha, hau, if_false, if_true] at h
      cases hx : extractAssistantMessage e with
      | none => simp [hx] at h
      | some r =>
        simp only [hx] at h
        by_cases ht : r.Texts.length > 0
        · simp only [ht, if_true, Option.some.injEq] at h
          subst h
          have := extractAssistantMessage_some hx
          refine Or.inr ⟨ha, rfl, this.1, ?_⟩
          intro hnil
          simp [hnil] at ht
        · simp [ht] at h
    · simp [hu, ha] at h

theorem ownMessage_role {e : Record} {m : Message} (h : ownMessage e = some m) :
    m.Role ≠ "tool_group" := by
  rcases ownMessage_some h with ⟨_, _, hr, _⟩ | ⟨_, _, hr, _⟩ <;> rw [hr] <;> decide

theorem mem_flushed {p : List String} {m : Message} (h : m ∈ flushed p) :
    m = toolGroup p ∧ p ≠ [] := by
  unfold flushed at h
  split at h
  · simp at h
  · rename_i hne
    simp only [List.mem_singleton] at h
    refine ⟨h, ?_⟩
    intro hp
    simp [hp] at hne

/-- Every message the loop appends is a user message, a text-bearing assistant
message or a non-empty tool group. -/
theorem mem_run {es : List Record} {p : List String} {m : Message} (h : m ∈ run p es) :
    (m.Role = "user" ∧ (m.Texts ≠ [] ∨ m.Images ≠ [])) ∨
    (m.Role = "assistant" ∧ m.Texts ≠ []) ∨
    (m.Role = "tool_group" ∧ m.ToolNames ≠ []) := by
  induction es generalizing p with
  | nil =>
    obtain ⟨hm, hp⟩ := mem_flushed (by simpa [run] using h)
    subst hm
    exact Or.inr (Or.inr ⟨rfl, hp⟩)
  | cons e es ih =>
    cases ho : ownMessage e with
    | none =>
      simp only [run, ho] at h
      exact ih h
    | some r =>
      simp only [run, ho, List.mem_append, List.mem_cons] at h
      rcases h with h | h | h
      · obtain ⟨hm, hp⟩ := mem_flushed h
        subst hm
        exact Or.inr (Or.inr ⟨rfl, hp⟩)
      · subst h
        rcases ownMessage_some ho with ⟨_, _, hr, hne⟩ | ⟨_, _, hr, hne⟩
        · exact Or.inl ⟨hr, hne⟩
        · exact Or.inr (Or.inl ⟨hr, hne⟩)
      · exact ih h

/-! ## Tool-only records and segments between flush points -/

theorem pendingNames_eq (e : Record) :
    pendingNames e = if isToolOnly e = true then toolUsesOf e else [] := by
  unfold pendingNames isToolOnly toolUsesOf
  by_cases ha : entryType e = "assistant"
  · cases hx : extractAssistantMessage e with
    | none => simp [ha]
    | some m =>
      cases ht : m.Texts with
      | nil =>
        cases hu : m.ToolUses with
        | nil => simp [ha, ht, hu]
        | cons a l => simp [ha, ht, hu]
      | cons a l => simp [ha, ht]
  · simp [ha]

theorem isToolOnly_own {e : Record} (h : isToolOnly e = true) : ownMessage e = none := by
  unfold isToolOnly at h
  unfold ownMessage
  simp only [Bool.and_eq_true, decide_eq_true_eq] at h
  obtain ⟨ha, h2⟩ := h
  have hau : ¬ ("assistant" = "user") := by decide
  simp only [ha, hau, if_false, if_true]
  cases hx : extractAssistantMessage e with
  | none => rfl
  | some m =>
    simp only [hx, Bool.and_eq_true, List.isEmpty_iff] at h2
    simp [h2.1]

theorem isToolOnly_names_ne {e : Record} (h : isToolOnly e = true) : toolUsesOf e ≠ [] := by
  unfold isToolOnly at h
  unfold toolUsesOf
  simp only [Bool.and_eq_true, decide_eq_true_eq] at h
  obtain ⟨_, h2⟩ := h
  cases hx : extractAssistantMessage e with
  | none => simp [hx] at h2
  | some m =>
    simp only [hx, Bool.and_eq_true, List.isEmpty_iff, Bool.not_eq_true', List.isEmpty_eq_false] at h2
    simpa using h2.2

theorem flatMap_pendingNames (seg : List Record) :
    seg.flatMap pendingNames = ((seg.filter isToolOnly).map toolUsesOf).flatten := by
  induction seg with
  | nil => rfl
  | cons e seg ih =>
    rw [List.flatMap_cons, ih, pendingNames_eq]
    by_cases h : isToolOnly e = true
    · simp [h]
    · simp [h]

theorem run_nil (p : List String) : run p [] = flushed p := rfl

theorem run_cons_none {e : Record} (es : List Record) (p : List String)
    (h : ownMessage e = none) : run p (e :: es) = run (p ++ pendingNames e) es := by
  simp only [run, h]

theorem run_cons_some {e : Record} {m : Message} (es : List Record) (p : List String)
    (h : ownMessage e = some m) : run p (e :: es) = flushed p ++ m :: run [] es := by
  simp only [run, h]

theorem run_noown (seg rest : List Record) (p : List String)
    (h : ∀ e ∈ seg, ownMessage e = none) :
    run p (seg ++ rest) = run (p ++ seg.flatMap pendingNames) rest := by
  induction seg generalizing p with
  | nil => simp
  | cons e seg ih =>
    have he : ownMessage e = none := h e (List.mem_cons_self _ _)
    have hs : ∀ x ∈ seg, ownMessage x = none := fun x hx => h x (List.mem_cons_of_mem _ hx)
    rw [List.cons_append, run_cons_none _ _ he, ih _ hs, List.flatMap_cons, List.append_assoc]

theorem run_append_cons_own (a b : List Record) (e : Record) (m : Message) (p : List String)
    (h : ownMessage e = some m) :
    run p (a ++ e :: b) = run p a ++ m :: run [] b := by
  induction a generalizing p with
  | nil => rw [List.nil_append, run_cons_some _ _ h, run_nil]
  | cons x a ih =>
    cases hx : ownMessage x with
    | none => rw [List.cons_append, run_cons_none _ _ hx, run_cons_none _ _ hx, ih]
    | some r =>
      rw [List.cons_append, run_cons_some _ _ hx, run_cons_some _ _ hx, ih]
      simp

theorem flushed_nil : flushed [] = [] := rfl

theorem flushed_ne {p : List String} (h : p ≠ []) : flushed p = [toolGroup p] := by
  unfold flushed
  cases p with
  | nil => exact absurd rfl h
  | cons a l => simp

theorem contributes_false {e : Record} (h : contributes e = false) :
    ownMessage e = none ∧ pendingNames e = [] := by
  unfold contributes at h
  simp only [Bool.or_eq_false_iff, Bool.and_eq_false_imp, decide_eq_true_eq] at h
  obtain ⟨h1, h2⟩ := h
  unfold ownMessage pendingNames
  by_cases hu : entryType e = "user"
  · have hx := h1 hu
    have : extractUserMessage e = none := by
      cases hy : extractUserMessage e with
      | none => rfl
      | some m => simp [hy] at hx
    have hne : ¬ ("user" = "assistant") := by decide
    simp [hu, this, hne]
  · by_cases ha : entryType e = "assistant"
    · have hx := h2 ha
      have : extractAssistantMessage e = none := by
        cases hy : extractAssistantMessage e with
        | none => rfl
        | some m => simp [hy] at hx
      simp [hu, ha, this]
    · simp [hu, ha]

theorem run_filter_contributes (es : List Record) (p : List String) :
    run p (es.filter contributes) = run p es := by
  induction es generalizing p with
  | nil => rfl
  | cons e es ih =>
    by_cases hc : contributes e = true
    · rw [List.filter_cons_of_pos hc]
      cases ho : ownMessage e with
      | none => rw [run_cons_none _ _ ho, run_cons_none _ _ ho, ih]
      | some m => rw [run_cons_some _ _ ho, run_cons_some _ _ ho, ih]
    · have hc2 : contributes e = false := by simpa using hc
      rw [List.filter_cons_of_neg hc]
      obtain ⟨h1, h2⟩ := contributes_false hc2
      rw [run_cons_none _ _ h1, h2, List.append_nil, ih]

theorem filter_flushed (p : List String) : (flushed p).filter notToolGroup = [] := by
  unfold flushed
  split
  · rfl
  · simp [notToolGroup, toolGroup]

theorem run_filter_notToolGroup (es : List Record) (p : List String) :
    (run p es).filter notToolGroup = es.filterMap ownMessage := by
  induction es generalizing p with
  | nil => simp [run, filter_flushed]
  | cons e es ih =>
    cases ho : ownMessage e with
    | none => rw [run_cons_none _ _ ho, ih, List.filterMap_cons, ho]
    | some m =>
      have hr : notToolGroup m = true := by
        simp [notToolGroup, ownMessage_role ho]
      rw [run_cons_some _ _ ho, List.filter_append, filter_flushed, List.nil_append,
        List.filter_cons_of_pos hr, ih, List.filterMap_cons, ho]

theorem segment_split (es : List Record) :
    ∃ seg rest, es = seg ++ rest ∧ (∀ e ∈ seg, ownMessage e = none) ∧
      (rest = [] ∨ ∃ e r m, rest = e :: r ∧ ownMessage e = some m) := by
  induction es with
  | nil => exact ⟨[], [], rfl, by simp, Or.inl rfl⟩
  | cons x xs ih =>
    cases hx : ownMessage x with
    | some m => exact ⟨[], x :: xs, rfl, by simp, Or.inr ⟨x, xs, m, rfl, hx⟩⟩
    | none =>
      obtain ⟨seg, rest, h1, h2, h3⟩ := ih
      refine ⟨x :: seg, rest, by simp [h1], ?_, h3⟩
      intro e he
      rcases List.mem_cons.mp he with rfl | he
      · exact hx
      · exact h2 e he

theorem run_segment (seg : List Record) (h : ∀ e ∈ seg, ownMessage e = none) :
    run [] seg = flushed (((seg.filter isToolOnly).map toolUsesOf).flatten) := by
  have := run_noown seg [] [] h
  rw [List.append_nil, List.nil_append, flatMap_pendingNames, run_nil] at this
  exact this

theorem isFlushPoint_of_own {e : Record} {m : Message} (h : ownMessage e = some m) :
    isFlushPoint e = true := by
  simp [isFlushPoint, h]

theorem isFlushPoint_of_none {e : Record} (h : ownMessage e = none) :
    isFlushPoint e = false := by
  simp [isFlushPoint, h]

/-- Every tool_group of the output of the loop is the flush of one maximal
segment of records between two flush points. -/
theorem toolGroup_segment_aux (n : Nat) : ∀ (es : List Record), es.length ≤ n →
    ∀ (pre post : List Message) (g : Message),
    run [] es = pre ++ g :: post → g.Role = "tool_group" →
    ∃ before seg rest, es = before ++ seg ++ rest ∧
      (before = [] ∨ ∃ b e, before = b ++ [e] ∧ isFlushPoint e = true) ∧
      (rest = [] ∨ ∃ e r, rest = e :: r ∧ isFlushPoint e = true) ∧
      (∀ e ∈ seg, isFlushPoint e = false) ∧
      g.ToolNames = ((seg.filter isToolOnly).map toolUsesOf).flatten ∧
      run [] before = pre ∧ run [] rest = post := by
  induction n with
  | zero =>
    intro es hlen pre post g heq _
    have hes : es = [] := List.length_eq_zero.mp (Nat.le_zero.mp hlen)
    subst hes
    rw [run_nil, flushed_nil] at heq
    exact absurd heq (by simp)
  | succ n ih =>
    intro es hlen pre post g heq hg
    obtain ⟨seg, rest, hes, hseg, hrest⟩ := segment_split es
    have hsegF : ∀ e ∈ seg, isFlushPoint e = false := fun e he => isFlushPoint_of_none (hseg e he)
    have hrunseg := run_segment seg hseg
    rcases hrest with hrest | ⟨e, r, m, hrest, hown⟩
    · -- the segment runs to the end of the stream
      subst hrest
      rw [List.append_nil] at hes
      subst hes
      rw [hrunseg] at heq
      by_cases hX : ((es.filter isToolOnly).map toolUsesOf).flatten = []
      · rw [hX, flushed_nil] at heq
        exact absurd heq (by simp)
      · rw [flushed_ne hX] at heq
        cases pre with
        | nil =>
          simp only [List.nil_append, List.cons.injEq] at heq
          obtain ⟨hg1, hp⟩ := heq
          refine ⟨[], es, [], by simp, Or.inl rfl, Or.inl rfl, hsegF, ?_, rfl, ?_⟩
          · rw [← hg1]; rfl
          · rw [run_nil, flushed_nil]; exact hp
        | cons a pre =>
          simp only [List.cons_append, List.cons.injEq] at heq
          exact absurd heq.2 (by simp)
    · -- the segment is closed by the flush point e
      subst hrest
      have hrlen : r.length ≤ n := by
        rw [hes] at hlen
        simp only [List.length_append, List.length_cons] at hlen
        omega
      have hrun : run [] es = flushed (((seg.filter isToolOnly).map toolUsesOf).flatten) ++
          m :: run [] r := by
        rw [hes, run_append_cons_own seg r e m [] hown, hrunseg]
      have hmrole : m.Role ≠ "tool_group" := ownMessage_role hown
      have key : ∀ pre2 : List Message, run [] r = pre2 ++ g :: post →
          ∃ before seg2 rest2, es = before ++ seg2 ++ rest2 ∧
            (before = [] ∨ ∃ b x, before = b ++ [x] ∧ isFlushPoint x = true) ∧
            (rest2 = [] ∨ ∃ x r2, rest2 = x :: r2 ∧ isFlushPoint x = true) ∧
            (∀ x ∈ seg2, isFlushPoint x = false) ∧
            g.ToolNames = ((seg2.filter isToolOnly).map toolUsesOf).flatten ∧
            run [] before =
              flushed (((seg.filter isToolOnly).map toolUsesOf).flatten) ++ m :: pre2 ∧
            run [] rest2 = post := by
        intro pre2 h2
        obtain ⟨b0, s0, r0, hr0, hb0, hrr0, hs0, hn0, hpre0, hpost0⟩ := ih r hrlen pre2 post g h2 hg
        refine ⟨seg ++ e :: b0, s0, r0, ?_, ?_, hrr0, hs0, hn0, ?_, hpost0⟩
        · rw [hes, hr0]; simp
        · right
          rcases hb0 with hb0 | ⟨b, x, hb0, hx⟩
          · exact ⟨seg, e, by rw [hb0], isFlushPoint_of_own hown⟩
          · exact ⟨seg ++ e :: b, x, by rw [hb0]; simp, hx⟩
        · rw [run_append_cons_own seg b0 e m [] hown, hrunseg, hpre0]
      rw [hrun] at heq
      by_cases hX : ((seg.filter isToolOnly).map toolUsesOf).flatten = []
      · rw [hX, flushed_nil, List.nil_append] at heq
        rw [hX, flushed_nil] at key
        cases pre with
        | nil =>
          simp only [List.nil_append, List.cons.injEq] at heq
          rw [heq.1] at hmrole
          exact absurd hg hmrole
        | cons a pre2 =>
          simp only [List.cons_append, List.cons.injEq] at heq
          obtain ⟨ha, h2⟩ := heq
          subst ha
          have hk := key pre2 h2
          simp only [List.nil_append] at hk
          exact hk
      · rw [flushed_ne hX] at heq key
        cases pre with
        | nil =>
          simp only [List.nil_append, List.singleton_append, List.cons.injEq] at heq
          obtain ⟨hg1, hp⟩ := heq
          refine ⟨[], seg, e :: r, by simp [hes], Or.inl rfl,
            Or.inr ⟨e, r, rfl, isFlushPoint_of_own hown⟩, hsegF, ?_, rfl, ?_⟩
          · rw [← hg1]; rfl
          · rw [run_cons_some _ _ hown, flushed_nil, List.nil_append]; exact hp
        | cons a pre1 =>
          simp only [List.cons_append, List.nil_append, List.cons.injEq] at heq
          obtain ⟨ha, h1⟩ := heq
          subst ha
          cases pre1 with
          | nil =>
            simp only [List.nil_append, List.cons.injEq] at h1
            rw [h1.1] at hmrole
            exact absurd hg hmrole
          | cons a2 pre2 =>
            simp only [List.cons_append, List.cons.injEq] at h1
            obtain ⟨ha2, h2⟩ := h1
            subst ha2
            have hk := key pre2 h2
            simp only [List.singleton_append] at hk
            exact hk

/-! ## The block loops of the extractors -/

theorem asString_eq_iff {v : JSON} {t : String} (ht : t ≠ "") :
    asString v = t ↔ v = JSON.str t := by
  cases v <;> simp [asString, ht.symm]

theorem asString_str (s : String) : asString (JSON.str s) = s := rfl

theorem isStringValue_eq (v : JSON) {s : String} (hs : s ≠ "") :
    isStringValue v s = decide (asString v = s) := by
  cases v <;> simp [isStringValue, asString, hs.symm]

theorem isBlockOfType_obj (bm : List (String × JSON)) {ty : String} (hs : ty ≠ "") :
    isBlockOfType ty (JSON.obj bm) = decide (asString (mapGet bm "type") = ty) := by
  simp [isBlockOfType, isMapping, blockField, isStringValue_eq _ hs]

theorem isBlockOfType_not_obj {b : JSON} (ty : String) (h : isMapping b = false) :
    isBlockOfType ty b = false := by
  simp [isBlockOfType, h]

theorem mediaTypeOf_eq (v : JSON) :
    mediaTypeOf v = if asString v = "" then "image/png" else asString v := by
  cases v <;> simp [mediaTypeOf, asString]

theorem userTexts_single (b : JSON) :
    userTexts [b] =
      if isBlockOfType "text" b = true ∧ trimmedText b ≠ "" ∧
          isSystemContent (trimmedText b) = false
      then [trimmedText b] else [] := by
  unfold userTexts
  by_cases h1 : isBlockOfType "text" b = true
  · by_cases h2 : trimmedText b = ""
    · simp [h1, h2]
    · by_cases h3 : isSystemContent (trimmedText b) = true
      · simp [h1, h2, h3]
      · have h3b : isSystemContent (trimmedText b) = false := by simpa using h3
        simp [h1, h2, h3b]
  · simp [h1]

theorem userImages_single (b : JSON) :
    userImages [b] = if isBase64Image b = true then [imageOf b] else [] := by
  unfold userImages
  by_cases h1 : isBase64Image b = true
  · simp [h1]
  · simp [h1]

theorem isBase64Image_not_image {b : JSON} (h : isBlockOfType "image" b = false) :
    isBase64Image b = false := by
  simp [isBase64Image, h]

theorem userBlockStep_eq (acc : List String × List Image) (b : JSON) :
    userBlockStep acc b = (acc.1 ++ userTexts [b], acc.2 ++ userImages [b]) := by
  have htext : ("text" : String) ≠ "" := by decide
  have himage : ("image" : String) ≠ "" := by decide
  have hb64 : ("base64" : String) ≠ "" := by decide
  rw [userTexts_single, userImages_single]
  cases b with
  | obj bm =>
    unfold userBlockStep
    dsimp only
    by_cases h1 : asString (mapGet bm "type") = "text"
    · have hT : isBlockOfType "text" (JSON.obj bm) = true := by
        rw [isBlockOfType_obj bm htext]; simpa using h1
      have hI : isBase64Image (JSON.obj bm) = false := by
        apply isBase64Image_not_image
        rw [isBlockOfType_obj bm himage, h1]; decide
      rw [if_pos h1, hI]
      by_cases h2 : TrimSpace (asString (mapGet bm "text")) ≠ "" ∧
          isSystemContent (TrimSpace (asString (mapGet bm "text"))) = false
      · have h2b : isBlockOfType "text" (JSON.obj bm) = true ∧ trimmedText (JSON.obj bm) ≠ "" ∧
            isSystemContent (trimmedText (JSON.obj bm)) = false := ⟨hT, h2⟩
        rw [if_pos h2, if_pos h2b]
        simp [trimmedText, blockField]
      · have h2b : ¬ (isBlockOfType "text" (JSON.obj bm) = true ∧
            trimmedText (JSON.obj bm) ≠ "" ∧
            isSystemContent (trimmedText (JSON.obj bm)) = false) := fun hc => h2 hc.2
        rw [if_neg h2, if_neg h2b]
        simp
    · have hT : ¬ (isBlockOfType "text" (JSON.obj bm) = true ∧
            trimmedText (JSON.obj bm) ≠ "" ∧
            isSystemContent (trimmedText (JSON.obj bm)) = false) := by
        rintro ⟨hc, _⟩
        rw [isBlockOfType_obj bm htext] at hc
        exact h1 (by simpa using hc)
      rw [if_neg h1, if_neg hT]
      by_cases h3 : asString (mapGet bm "type") = "image"
      · rw [if_pos h3]
        have hIm : isBlockOfType "image" (JSON.obj bm) = true := by
          rw [isBlockOfType_obj bm himage]; simpa using h3
        cases hs : mapGet bm "source" with
        | obj source =>
          dsimp only
          by_cases h4 : asString (mapGet source "type") = "base64"
          · have hI : isBase64Image (JSON.obj bm) = true := by
              simp [isBase64Image, hIm, blockField, hs, isMapping, isStringValue_eq _ hb64, h4]
            rw [if_pos h4, hI]
            simp [imageOf, blockField, hs, mediaTypeOf_eq]
          · have hI : isBase64Image (JSON.obj bm) = false := by
              simp [isBase64Image, hIm, blockField, hs, isMapping, isStringValue_eq _ hb64, h4]
            rw [if_neg h4, hI]
            simp
        | null =>
          have hI : isBase64Image (JSON.obj bm) = false := by
            simp [isBase64Image, blockField, hs, isMapping]
          rw [hI]; simp
        | bool x =>
          have hI : isBase64Image (JSON.obj bm) = false := by
            simp [isBase64Image, blockField, hs, isMapping]
          rw [hI]; simp
        | num x =>
          have hI : isBase64Image (JSON.obj bm) = false := by
            simp [isBase64Image, blockField, hs, isMapping]
          rw [hI]; simp
        | str x =>
          have hI : isBase64Image (JSON.obj bm) = false := by
            simp [isBase64Image, blockField, hs, isMapping]
          rw [hI]; simp
        | arr x =>
          have hI : isBase64Image (JSON.obj bm) = false := by
            simp [isBase64Image, blockField, hs, isMapping]
          rw [hI]; simp
      · have hI : isBase64Image (JSON.obj bm) = false := by
          apply isBase64Image_not_image
          rw [isBlockOfType_obj bm himage]; simpa using h3
        rw [if_neg h3, hI]
        simp
  | null => simp [userBlockStep, isBlockOfType, isBase64Image, isMapping]
  | bool x => simp [userBlockStep, isBlockOfType, isBase64Image, isMapping]
  | num x => simp [userBlockStep, isBlockOfType, isBase64Image, isMapping]
  | str x => simp [userBlockStep, isBlockOfType, isBase64Image, isMapping]
  | arr x => simp [userBlockStep, isBlockOfType, isBase64Image, isMapping]

theorem userTexts_cons (b : JSON) (bs : List JSON) :
    userTexts (b :: bs) = userTexts [b] ++ userTexts bs := by
  have : b :: bs = [b] ++ bs := rfl
  rw [this]
  simp only [userTexts, List.filter_append, List.map_append]

theorem userImages_cons (b : JSON) (bs : List JSON) :
    userImages (b :: bs) = userImages [b] ++ userImages bs := by
  have : b :: bs = [b] ++ bs := rfl
  rw [this]
  simp only [userImages, List.filter_append, List.map_append]

theorem foldl_userBlockStep (blocks : List JSON) (acc : List String × List Image) :
    blocks.foldl userBlockStep acc = (acc.1 ++ userTexts blocks, acc.2 ++ userImages blocks) := by
  induction blocks generalizing acc with
  | nil => simp [userTexts, userImages]
  | cons b bs ih =>
    rw [List.foldl_cons, ih, userBlockStep_eq, userTexts_cons b bs, userImages_cons b bs]
    simp

theorem onlyToolStep_or (h : Bool) (b : JSON) :
    onlyToolStep h b = (h || onlyToolStep false b) := by
  cases h
  · simp
  · unfold onlyToolStep
    cases b with
    | obj bm =>
      dsimp only
      cases mapGet bm "type" with
      | str ty =>
        dsimp only
        split
        · split <;> rfl
        · split <;> rfl
      | null => rfl
      | bool x => rfl
      | num x => rfl
      | arr x => rfl
      | obj x => rfl
    | str x =>
      dsimp only
      split <;> rfl
    | null => rfl
    | bool x => rfl
    | num x => rfl
    | arr x => rfl

theorem foldl_onlyToolStep (blocks : List JSON) (h : Bool) :
    blocks.foldl onlyToolStep h = (h || blocks.any (onlyToolStep false)) := by
  induction blocks generalizing h with
  | nil => simp
  | cons b bs ih =>
    rw [List.foldl_cons, ih, onlyToolStep_or h b, List.any_cons, Bool.or_assoc]

theorem isOnlyToolResults_iff (blocks : List JSON) :
    isOnlyToolResults blocks = true ↔ ∀ b ∈ blocks, onlyToolStep false b = false := by
  unfold isOnlyToolResults
  cases blocks with
  | nil => simp
  | cons b bs =>
    rw [foldl_onlyToolStep]
    simp

theorem onlyToolStep_false {b : JSON} (h : onlyToolStep false b = false) :
    userTexts [b] = [] ∧ userImages [b] = [] := by
  have htext : ("text" : String) ≠ "" := by decide
  have himage : ("image" : String) ≠ "" := by decide
  rw [userTexts_single, userImages_single]
  cases b with
  | obj bm =>
    unfold onlyToolStep at h
    dsimp only at h
    cases hty : mapGet bm "type" with
    | str ty =>
      rw [hty] at h
      dsimp only at h
      have hI : isBase64Image (JSON.obj bm) = false := by
        apply isBase64Image_not_image
        rw [isBlockOfType_obj bm himage, hty, asString_str]
        by_cases h1 : ty = "text"
        · rw [h1]; decide
        · rw [if_neg h1] at h
          by_cases h3 : ty = "image"
          · rw [if_pos h3] at h
            exact absurd h (by decide)
          · simpa using h3
      refine ⟨?_, by rw [hI]; simp⟩
      by_cases h1 : ty = "text"
      · rw [if_pos h1] at h
        by_cases h2 : TrimSpace (asString (mapGet bm "text")) ≠ "" ∧
            isSystemContent (TrimSpace (asString (mapGet bm "text"))) = false
        · rw [if_pos h2] at h
          exact absurd h (by decide)
        · rw [if_neg]
          exact fun hc => h2 hc.2
      · rw [if_neg]
        rintro ⟨hc, _⟩
        rw [isBlockOfType_obj bm htext, hty, asString_str] at hc
        exact h1 (by simpa using hc)
    | null => simp [isBlockOfType, isBase64Image, isMapping, blockField, hty, isStringValue]
    | bool x => simp [isBlockOfType, isBase64Image, isMapping, blockField, hty, isStringValue]
    | num x => simp [isBlockOfType, isBase64Image, isMapping, blockField, hty, isStringValue]
    | arr x => simp [isBlockOfType, isBase64Image, isMapping, blockField, hty, isStringValue]
    | obj x => simp [isBlockOfType, isBase64Image, isMapping, blockField, hty, isStringValue]
  | null => simp [isBlockOfType, isBase64Image, isMapping]
  | bool x => simp [isBlockOfType, isBase64Image, isMapping]
  | num x => simp [isBlockOfType, isBase64Image, isMapping]
  | str x => simp [isBlockOfType, isBase64Image, isMapping]
  | arr x => simp [isBlockOfType, isBase64Image, isMapping]

/-- When `isOnlyToolResults` holds the block loop of `extractUserMessage` would
collect no text and no image. -/
theorem isOnlyToolResults_true {blocks : List JSON} (h : isOnlyToolResults blocks = true) :
    userTexts blocks = [] ∧ userImages blocks = [] := by
  rw [isOnlyToolResults_iff] at h
  induction blocks with
  | nil => exact ⟨rfl, rfl⟩
  | cons b bs ih =>
    have hb := onlyToolStep_false (h b (List.mem_cons_self _ _))
    have hbs := ih (fun x hx => h x (List.mem_cons_of_mem _ hx))
    rw [userTexts_cons, userImages_cons, hb.1, hb.2, hbs.1, hbs.2]
    exact ⟨rfl, rfl⟩

theorem toolNameOf_eq (b : JSON) :
    toolNameOf b =
      if asString (blockField b "name") = "" then "unknown" else asString (blockField b "name") := by
  unfold toolNameOf
  cases blockField b "name" <;> simp [asString]

theorem assistantTexts_single (b : JSON) :
    assistantTexts [b] =
      if isBlockOfType "text" b = true ∧ trimmedText b ≠ "" then [trimmedText b] else [] := by
  unfold assistantTexts
  by_cases h1 : isBlockOfType "text" b = true
  · by_cases h2 : trimmedText b = ""
    · simp [h1, h2]
    · simp [h1, h2]
  · simp [h1]

theorem assistantTools_single (b : JSON) :
    assistantTools [b] = if isBlockOfType "tool_use" b = true then [toolNameOf b] else [] := by
  unfold assistantTools
  by_cases h1 : isBlockOfType "tool_use" b = true
  · simp [h1]
  · simp [h1]

theorem assistantBlockStep_eq (acc : List String × List String) (b : JSON) :
    assistantBlockStep acc b = (acc.1 ++ assistantTexts [b], acc.2 ++ assistantTools [b]) := by
  have htext : ("text" : String) ≠ "" := by decide
  have htool : ("tool_use" : String) ≠ "" := by decide
  rw [assistantTexts_single, assistantTools_single]
  cases b with
  | obj bm =>
    unfold assistantBlockStep
    dsimp only
    rw [isBlockOfType_obj bm htext, isBlockOfType_obj bm htool]
    by_cases h1 : asString (mapGet bm "type") = "text"
    · have hne : ¬ (("text" : String) = "tool_use") := by decide
      rw [if_pos h1]
      by_cases h2 : TrimSpace (asString (mapGet bm "text")) = ""
      · simp [h1, h2, hne, trimmedText, blockField]
      · simp [h1, h2, hne, trimmedText, blockField]
    · rw [if_neg h1]
      by_cases h3 : asString (mapGet bm "type") = "tool_use"
      · simp [h1, h3, toolNameOf_eq, blockField]
      · simp [h1, h3]
  | null => simp [assistantBlockStep, isBlockOfType, isMapping]
  | bool x => simp [assistantBlockStep, isBlockOfType, isMapping]
  | num x => simp [assistantBlockStep, isBlockOfType, isMapping]
  | str x => simp [assistantBlockStep, isBlockOfType, isMapping]
  | arr x => simp [assistantBlockStep, isBlockOfType, isMapping]

theorem assistantTexts_cons (b : JSON) (bs : List JSON) :
    assistantTexts (b :: bs) = assistantTexts [b] ++ assistantTexts bs := by
  have : b :: bs = [b] ++ bs := rfl
  rw [this]
  simp only [assistantTexts, List.filter_append, List.map_append]

theorem assistantTools_cons (b : JSON) (bs : List JSON) :
    assistantTools (b :: bs) = assistantTools [b] ++ assistantTools bs := by
  have : b :: bs = [b] ++ bs := rfl
  rw [this]
  simp only [assistantTools, List.filter_append, List.map_append]

theorem foldl_assistantBlockStep (blocks : List JSON) (acc : List String × List String) :
    blocks.foldl assistantBlockStep acc =
      (acc.1 ++ assistantTexts blocks, acc.2 ++ assistantTools blocks) := by
  induction blocks generalizing acc with
  | nil => simp [assistantTexts, assistantTools]
  | cons b bs ih =>
    rw [List.foldl_cons, ih, assistantBlockStep_eq, assistantTexts_cons b bs,
      assistantTools_cons b bs]
    simp

/-- The value of `extractUserMessage` on a record with list content. -/
theorem extractUserMessage_arr {e : Record} {msg : List (String × JSON)} {blocks : List JSON}
    (h1 : mapGet e "message" = JSON.obj msg) (h2 : mapGet msg "content" = JSON.arr blocks) :
    extractUserMessage e =
      if userTexts blocks = [] ∧ userImages blocks = [] then none
      else some { Role := "user", Texts := userTexts blocks, Images := userImages blocks,
                  ToolUses := [], ToolNames := [],
                  Timestamp := asString (mapGet e "timestamp") } := by
  unfold extractUserMessage
  rw [h1]
  dsimp only
  rw [h2]
  dsimp only
  by_cases ho : isOnlyToolResults blocks = true
  · rw [if_pos ho, if_pos (isOnlyToolResults_true ho)]
  · rw [if_neg ho, foldl_userBlockStep]
    simp [userResult]

/-- The value of `extractAssistantMessage` on a record with list content. -/
theorem extractAssistantMessage_arr {e : Record} {msg : List (String × JSON)}
    {blocks : List JSON}
    (h1 : mapGet e "message" = JSON.obj msg) (h2 : mapGet msg "content" = JSON.arr blocks) :
    extractAssistantMessage e =
      if assistantTexts blocks = [] ∧ assistantTools blocks = [] then none
      else some { Role := "assistant", Texts := assistantTexts blocks, Images := [],
                  ToolUses := assistantTools blocks, ToolNames := [],
                  Timestamp := asString (mapGet e "timestamp") } := by
  unfold extractAssistantMessage
  rw [h1]
  dsimp only
  rw [h2]
  dsimp only
  rw [foldl_assistantBlockStep]
  simp

/-! ## Properties of `BuildMessages` -/

/-- C1: every message of `BuildMessages entries` is a "user", "assistant" or
"tool_group" message and carries something: a user message has non-empty
`Texts` or non-empty `Images`, an assistant message has non-empty `Texts`, a
tool_group has non-empty `ToolNames`; so no message has empty `Texts`, empty
`Images` and empty `ToolNames` at once. -/
theorem buildMessages_message_nonempty (entries : List Record) (m : Message)
    (h : m ∈ BuildMessages entries) :
    (m.Role = "user" ∨ m.Role = "assistant" ∨ m.Role = "tool_group") ∧
    (m.Role = "user" → m.Texts ≠ [] ∨ m.Images ≠ []) ∧
    (m.Role = "assistant" → m.Texts ≠ []) ∧
    (m.Role = "tool_group" → m.ToolNames ≠ []) ∧
    ¬ (m.Texts = [] ∧ m.Images = [] ∧ m.ToolNames = []) := by
  rw [BuildMessages_eq_run] at h
  rcases mem_run h with ⟨hr, hne⟩ | ⟨hr, hne⟩ | ⟨hr, hne⟩
  · refine ⟨Or.inl hr, fun _ => hne, ?_, ?_, ?_⟩
    · intro h2; rw [hr] at h2; exact absurd h2 (by decide)
    · intro h2; rw [hr] at h2; exact absurd h2 (by decide)
    · rintro ⟨h1, h2, _⟩
      rcases hne with hne | hne
      · exact hne h1
      · exact hne h2
  · refine ⟨Or.inr (Or.inl hr), ?_, fun _ => hne, ?_, ?_⟩
    · intro h2; rw [hr] at h2; exact absurd h2 (by decide)
    · intro h2; rw [hr] at h2; exact absurd h2 (by decide)
    · rintro ⟨h1, _, _⟩
      exact hne h1
  · refine ⟨Or.inr (Or.inr hr), ?_, ?_, fun _ => hne, ?_⟩
    · intro h2; rw [hr] at h2; exact absurd h2 (by decide)
    · intro h2; rw [hr] at h2; exact absurd h2 (by decide)
    · rintro ⟨_, _, h3⟩
      exact hne h3

/-- Witness for C1: the user message of a sample session. -/
theorem buildMessages_message_nonempty_witness :
    sampleHelloMessage ∈ BuildMessages sampleSession ∧
    (sampleHelloMessage.Role = "user" →
      sampleHelloMessage.Texts ≠ [] ∨ sampleHelloMessage.Images ≠ []) ∧
    ¬ (sampleHelloMessage.Texts = [] ∧ sampleHelloMessage.Images = [] ∧
      sampleHelloMessage.ToolNames = []) :=
  ⟨by decide,
   (buildMessages_message_nonempty sampleSession sampleHelloMessage (by decide)).2.1,
   (buildMessages_message_nonempty sampleSession sampleHelloMessage (by decide)).2.2.2.2⟩

/-- C2: every tool_group of `BuildMessages entries` has a non-empty `ToolNames`
list, and it is the in-order concatenation of the `ToolUses` of exactly the
tool-only assistant records of one segment `seg` of the input, where `seg` lies
between the previous flush point (or the start of the stream) and the flush
point at which the group is emitted (or the end of the stream): the messages
before the group are the output of the records before `seg`, and the messages
after it are the output of the records from the closing flush point on. -/
theorem buildMessages_toolGroup_names (entries : List Record) (pre post : List Message)
    (g : Message) (hsplit : BuildMessages entries = pre ++ g :: post)
    (hg : g.Role = "tool_group") :
    g.ToolNames ≠ [] ∧
    ∃ before seg rest, entries = before ++ seg ++ rest ∧
      (before = [] ∨ ∃ b e, before = b ++ [e] ∧ isFlushPoint e = true) ∧
      (rest = [] ∨ ∃ e r, rest = e :: r ∧ isFlushPoint e = true) ∧
      (∀ e ∈ seg, isFlushPoint e = false) ∧
      g.ToolNames = ((seg.filter isToolOnly).map toolUsesOf).flatten ∧
      BuildMessages before = pre ∧ BuildMessages rest = post := by
  refine ⟨?_, ?_⟩
  · have hmem : g ∈ BuildMessages entries := by rw [hsplit]; simp
    rw [BuildMessages_eq_run] at hmem
    rcases mem_run hmem with ⟨hr, _⟩ | ⟨hr, _⟩ | ⟨_, hne⟩
    · rw [hr] at hg; exact absurd hg (by decide)
    · rw [hr] at hg; exact absurd hg (by decide)
    · exact hne
  · rw [BuildMessages_eq_run] at hsplit
    obtain ⟨b, s, r, h1, h2, h3, h4, h5, h6, h7⟩ :=
      toolGroup_segment_aux entries.length entries (Nat.le_refl _) pre post g hsplit hg
    exact ⟨b, s, r, h1, h2, h3, h4, h5, by rw [BuildMessages_eq_run]; exact h6,
      by rw [BuildMessages_eq_run]; exact h7⟩

/-- Witness for C2: the first tool group of the sample session collects the
tool names of the two tool-only records before the user turn. -/
theorem buildMessages_toolGroup_names_witness :
    BuildMessages sampleSession =
      [] ++ toolGroup ["Bash", "Grep", "Edit"] :: [sampleHelloMessage, toolGroup ["Read"]] ∧
    (toolGroup ["Bash", "Grep", "Edit"]).Role = "tool_group" ∧
    (toolGroup ["Bash", "Grep", "Edit"]).ToolNames ≠ [] ∧
    ∃ before seg rest, sampleSession = before ++ seg ++ rest ∧
      (before = [] ∨ ∃ b e, before = b ++ [e] ∧ isFlushPoint e = true) ∧
      (rest = [] ∨ ∃ e r, rest = e :: r ∧ isFlushPoint e = true) ∧
      (∀ e ∈ seg, isFlushPoint e = false) ∧
      (toolGroup ["Bash", "Grep", "Edit"]).ToolNames =
        ((seg.filter isToolOnly).map toolUsesOf).flatten ∧
      BuildMessages before = [] ∧
      BuildMessages rest = [sampleHelloMessage, toolGroup ["Read"]] :=
  ⟨by decide, by decide,
   buildMessages_toolGroup_names sampleSession [] [sampleHelloMessage, toolGroup ["Read"]]
     (toolGroup ["Bash", "Grep", "Edit"]) (by decide) (by decide)⟩

/-- C3: end-of-stream boundary. For a non-empty sequence made only of tool-only
assistant records, `BuildMessages` returns exactly one message, the tool_group
whose `ToolNames` is the in-order concatenation of the tool names of the records. -/
theorem buildMessages_all_toolOnly (entries : List Record) (hne : entries ≠ [])
    (h : ∀ e ∈ entries, isToolOnly e = true) :
    BuildMessages entries = [toolGroup ((entries.map toolUsesOf).flatten)] ∧
    (entries.map toolUsesOf).flatten ≠ [] := by
  have hown : ∀ e ∈ entries, ownMessage e = none := fun e he => isToolOnly_own (h e he)
  have hfil : entries.filter isToolOnly = entries := List.filter_eq_self.mpr h
  have hrun : BuildMessages entries = flushed ((entries.map toolUsesOf).flatten) := by
    rw [BuildMessages_eq_run]
    have := run_noown entries [] [] hown
    rw [List.append_nil, List.nil_append, flatMap_pendingNames, hfil] at this
    rw [this]
    rfl
  have hnn : (entries.map toolUsesOf).flatten ≠ [] := by
    cases entries with
    | nil => exact absurd rfl hne
    | cons e es =>
      have := isToolOnly_names_ne (h e (List.mem_cons_self _ _))
      simp only [List.map_cons, List.flatten_cons]
      intro hc
      exact this (List.append_eq_nil.mp hc).1
  exact ⟨by rw [hrun, flushed_ne hnn], hnn⟩

/-- Witness for C3: tool names `Bash` and then `Grep`, `Edit`, followed by the
end of the stream, give exactly one tool_group with the three names. -/
theorem buildMessages_all_toolOnly_witness :
    sampleToolRun ≠ [] ∧ (∀ e ∈ sampleToolRun, isToolOnly e = true) ∧
    (sampleToolRun.map toolUsesOf).flatten = ["Bash", "Grep", "Edit"] ∧
    BuildMessages sampleToolRun = [toolGroup ((sampleToolRun.map toolUsesOf).flatten)] :=
  ⟨List.cons_ne_nil _ _, by decide, by decide,
   (buildMessages_all_toolOnly sampleToolRun (List.cons_ne_nil _ _) (by decide)).1⟩

/-- C4: next-turn boundary. For a tool-only assistant record `A` and a user
record `U` whose extraction yields `m`, `BuildMessages [A, U]` is the tool_group
of the tool names of `A` followed by `m`. -/
theorem buildMessages_toolOnly_then_user (A U : Record) (m : Message)
    (hA : isToolOnly A = true) (hU : entryType U = "user")
    (hm : extractUserMessage U = some m) :
    BuildMessages [A, U] = [toolGroup (toolUsesOf A), m] := by
  have h1 : ownMessage A = none := isToolOnly_own hA
  have h2 : ownMessage U = some m := by simp [ownMessage, hU, hm]
  have h3 : pendingNames A = toolUsesOf A := by rw [pendingNames_eq]; simp [hA]
  rw [BuildMessages_eq_run, run_cons_none _ _ h1, run_cons_some _ _ h2, run_nil, h3,
    List.nil_append, flushed_ne (isToolOnly_names_ne hA), flushed_nil]
  rfl

/-- Witness for C4: a thinking block and a `Read` tool use, followed by a user
text message. -/
theorem buildMessages_toolOnly_then_user_witness :
    isToolOnly sampleThinkingRead = true ∧ entryType sampleUserHello = "user" ∧
    extractUserMessage sampleUserHello = some sampleHelloMessage ∧
    toolUsesOf sampleThinkingRead = ["Read"] ∧
    BuildMessages [sampleThinkingRead, sampleUserHello] =
      [toolGroup (toolUsesOf sampleThinkingRead), sampleHelloMessage] :=
  ⟨by decide, by decide, by decide, by decide,
   buildMessages_toolOnly_then_user sampleThinkingRead sampleUserHello sampleHelloMessage
     (by decide) (by decide) (by decide)⟩

/-- C5: the non-tool_group messages of `BuildMessages entries` are exactly, in
record order, the extracted user messages and the extracted text-bearing
assistant messages, unchanged. -/
theorem buildMessages_own_messages (entries : List Record) :
    (BuildMessages entries).filter notToolGroup = entries.filterMap ownMessage := by
  rw [BuildMessages_eq_run, run_filter_notToolGroup]

/-- C6: deleting every record that contributes nothing (a type other than
"user" and "assistant", or an extractor that yields no message) leaves the
output of `BuildMessages` unchanged; in particular one such record anywhere in
the sequence can be deleted. -/
theorem buildMessages_ignores_noncontributing (entries : List Record) :
    BuildMessages entries = BuildMessages (entries.filter contributes) ∧
    ∀ (a b : List Record) (x : Record), contributes x = false →
      BuildMessages (a ++ x :: b) = BuildMessages (a ++ b) := by
  refine ⟨?_, ?_⟩
  · rw [BuildMessages_eq_run, BuildMessages_eq_run, run_filter_contributes]
  · intro a b x hx
    rw [BuildMessages_eq_run, BuildMessages_eq_run, ← run_filter_contributes (a ++ x :: b),
      ← run_filter_contributes (a ++ b)]
    simp [List.filter_append, hx]

/-- Witness for C6: an ignored record between two tool-only assistant records
does not split their tool_group. -/
theorem buildMessages_ignores_noncontributing_witness :
    contributes summaryRecord = false ∧
    BuildMessages ([assistantRecord [toolUseBlock "Bash"]] ++ summaryRecord ::
        [assistantRecord [toolUseBlock "Grep", toolUseBlock "Edit"]]) =
      BuildMessages ([assistantRecord [toolUseBlock "Bash"]] ++
        [assistantRecord [toolUseBlock "Grep", toolUseBlock "Edit"]]) :=
  ⟨by decide,
   (buildMessages_ignores_noncontributing []).2 [assistantRecord [toolUseBlock "Bash"]]
     [assistantRecord [toolUseBlock "Grep", toolUseBlock "Edit"]] summaryRecord (by decide)⟩

/-! ## Properties of the extractors -/

/-- C7: for a record whose `message.content` is a string `c`,
`extractUserMessage` returns no message when `c` is blank or system content,
and otherwise the "user" message with `Texts = [c]`, no image and the timestamp
string of the record. -/
theorem extractUserMessage_string_content (e : Record) (msg : List (String × JSON))
    (c : String) (h1 : mapGet e "message" = JSON.obj msg)
    (h2 : mapGet msg "content" = JSON.str c) :
    ((TrimSpace c = "" ∨ isSystemContent c = true) → extractUserMessage e = none) ∧
    (¬ (TrimSpace c = "" ∨ isSystemContent c = true) →
      extractUserMessage e =
        some { Role := "user", Texts := [c], Images := [], ToolUses := [], ToolNames := [],
               Timestamp := asString (mapGet e "timestamp") }) := by
  unfold extractUserMessage
  rw [h1]
  dsimp only
  rw [h2]
  dsimp only
  refine ⟨fun h => by rw [if_pos h], fun h => ?_⟩
  rw [if_neg h]
  simp [userResult]

/-- Witness for C7: a system reminder as string content is dropped. -/
theorem extractUserMessage_string_content_witness :
    mapGet (userTextRecord "<system-reminder>foo</system-reminder>" "t") "message" =
      JSON.obj [("content", JSON.str "<system-reminder>foo</system-reminder>")] ∧
    mapGet [("content", JSON.str "<system-reminder>foo</system-reminder>")] "content" =
      JSON.str "<system-reminder>foo</system-reminder>" ∧
    isSystemContent "<system-reminder>foo</system-reminder>" = true ∧
    extractUserMessage (userTextRecord "<system-reminder>foo</system-reminder>" "t") = none :=
  ⟨rfl, rfl, by decide,
   (extractUserMessage_string_content
      (userTextRecord "<system-reminder>foo</system-reminder>" "t")
      [("content", JSON.str "<system-reminder>foo</system-reminder>")]
      "<system-reminder>foo</system-reminder>" rfl rfl).1 (Or.inr (by decide))⟩

/-- C8: for a record whose `message.content` is a list of blocks, a message
returned by `extractUserMessage` is a "user" message whose `Texts` are the
trimmed texts of the text blocks with non-empty, non-system trimmed text and
whose `Images` are the images of the base64 image blocks, both in block order;
and no message is returned exactly when both lists are empty. -/
theorem extractUserMessage_block_content (e : Record) (msg : List (String × JSON))
    (blocks : List JSON) (h1 : mapGet e "message" = JSON.obj msg)
    (h2 : mapGet msg "content" = JSON.arr blocks) :
    (∀ m, extractUserMessage e = some m →
      m.Role = "user" ∧ m.Texts = userTexts blocks ∧ m.Images = userImages blocks ∧
      m.Timestamp = asString (mapGet e "timestamp")) ∧
    (extractUserMessage e = none ↔ userTexts blocks = [] ∧ userImages blocks = []) := by
  rw [extractUserMessage_arr h1 h2]
  by_cases hc : userTexts blocks = [] ∧ userImages blocks = []
  · rw [if_pos hc]
    exact ⟨fun m hm => by simp at hm, fun _ => hc, fun _ => rfl⟩
  · rw [if_neg hc]
    refine ⟨fun m hm => ?_, fun h => by simp at h, fun h => absurd h hc⟩
    simp only [Option.some.injEq] at hm
    subst hm
    exact ⟨rfl, rfl, rfl, rfl⟩

/-- Witness for C8: a user turn with text, system noise, a tool result, a
plain string, two base64 images and an image with another source type. -/
theorem extractUserMessage_block_content_witness :
    mapGet (userBlocksRecord sampleUserBlocks "t") "message" =
      JSON.obj [("content", JSON.arr sampleUserBlocks)] ∧
    mapGet [("content", JSON.arr sampleUserBlocks)] "content" = JSON.arr sampleUserBlocks ∧
    userTexts sampleUserBlocks = ["look at this"] ∧
    userImages sampleUserBlocks =
      [{ MediaType := "image/png", Data := "iVBORw0KGgo=" },
       { MediaType := "image/jpeg", Data := "/9j/4AAQ" }] ∧
    (extractUserMessage (userBlocksRecord sampleUserBlocks "t") = none ↔
      userTexts sampleUserBlocks = [] ∧ userImages sampleUserBlocks = []) :=
  ⟨rfl, rfl, by decide, by decide,
   (extractUserMessage_block_content (userBlocksRecord sampleUserBlocks "t")
      [("content", JSON.arr sampleUserBlocks)] sampleUserBlocks rfl rfl).2⟩

/-- C9: for a record whose `message.content` is a list of blocks, a message
returned by `extractAssistantMessage` is an "assistant" message whose `Texts`
are the non-empty trimmed texts of the text blocks (system content included)
and whose `ToolUses` are the names of the tool_use blocks ("unknown" for an
absent, non-string or empty name), both in block order; no message is returned
exactly when both lists are empty, so blocks of other types contribute nothing. -/
theorem extractAssistantMessage_block_content (e : Record) (msg : List (String × JSON))
    (blocks : List JSON) (h1 : mapGet e "message" = JSON.obj msg)
    (h2 : mapGet msg "content" = JSON.arr blocks) :
    (∀ m, extractAssistantMessage e = some m →
      m.Role = "assistant" ∧ m.Texts = assistantTexts blocks ∧
      m.ToolUses = assistantTools blocks ∧
      (∀ b ∈ blocks, isBlockOfType "text" b = true → trimmedText b ≠ "" →
        trimmedText b ∈ m.Texts)) ∧
    (extractAssistantMessage e = none ↔
      assistantTexts blocks = [] ∧ assistantTools blocks = []) ∧
    ((∀ b ∈ blocks, isBlockOfType "text" b = false ∧ isBlockOfType "tool_use" b = false) →
      extractAssistantMessage e = none) := by
  have hmem : ∀ b ∈ blocks, isBlockOfType "text" b = true → trimmedText b ≠ "" →
      trimmedText b ∈ assistantTexts blocks := by
    intro b hb ht hne
    unfold assistantTexts
    rw [List.mem_filter]
    refine ⟨List.mem_map.mpr ⟨b, List.mem_filter.mpr ⟨hb, ht⟩, rfl⟩, by simpa using hne⟩
  have hother : (∀ b ∈ blocks, isBlockOfType "text" b = false ∧
      isBlockOfType "tool_use" b = false) →
      assistantTexts blocks = [] ∧ assistantTools blocks = [] := by
    intro h
    have ht : blocks.filter (isBlockOfType "text") = [] :=
      List.filter_eq_nil_iff.mpr (fun b hb => by simp [(h b hb).1])
    have hu : blocks.filter (isBlockOfType "tool_use") = [] :=
      List.filter_eq_nil_iff.mpr (fun b hb => by simp [(h b hb).2])
    simp [assistantTexts, assistantTools, ht, hu]
  rw [extractAssistantMessage_arr h1 h2]
  by_cases hc : assistantTexts blocks = [] ∧ assistantTools blocks = []
  · rw [if_pos hc]
    exact ⟨fun m hm => by simp at hm, ⟨fun _ => hc, fun _ => rfl⟩, fun _ => rfl⟩
  · rw [if_neg hc]
    refine ⟨fun m hm => ?_, ⟨fun h => by simp at h, fun h => absurd h hc⟩,
      fun h => absurd (hother h) hc⟩
    simp only [Option.some.injEq] at hm
    subst hm
    exact ⟨rfl, rfl, rfl, hmem⟩

/-- Witness for C9: system-looking assistant text is kept, the thinking block
contributes nothing and a tool use without a string name is "unknown". -/
theorem extractAssistantMessage_block_content_witness :
    mapGet (assistantRecord sampleAssistantBlocks) "message" =
      JSON.obj [("content", JSON.arr sampleAssistantBlocks)] ∧
    mapGet [("content", JSON.arr sampleAssistantBlocks)] "content" =
      JSON.arr sampleAssistantBlocks ∧
    assistantTexts sampleAssistantBlocks = ["<system-reminder>x</system-reminder>"] ∧
    assistantTools sampleAssistantBlocks = ["Read", "unknown"] ∧
    (extractAssistantMessage (assistantRecord sampleAssistantBlocks) = none ↔
      assistantTexts sampleAssistantBlocks = [] ∧ assistantTools sampleAssistantBlocks = []) :=
  ⟨rfl, rfl, by decide, by decide,
   (extractAssistantMessage_block_content (assistantRecord sampleAssistantBlocks)
      [("content", JSON.arr sampleAssistantBlocks)] sampleAssistantBlocks rfl rfl).2.1⟩

/-- C10: malformed record shapes yield no message. `extractUserMessage` returns
no message when `message` is missing or not a mapping, or when
`message.content` is neither a string nor a list; `extractAssistantMessage`
returns no message when `message` is missing or not a mapping, or when
`message.content` is not a list (a string included); and `BuildMessages` and
`ExtractMeta` are total functions, so they return a result for every sequence
of records (the empty output for records that all lack a `message` mapping). -/
theorem malformed_records_yield_no_message :
    (∀ e : Record, isMapping (mapGet e "message") = false → extractUserMessage e = none) ∧
    (∀ (e : Record) (msg : List (String × JSON)), mapGet e "message" = JSON.obj msg →
      isString (mapGet msg "content") = false → isList (mapGet msg "content") = false →
      extractUserMessage e = none) ∧
    (∀ e : Record, isMapping (mapGet e "message") = false →
      extractAssistantMessage e = none) ∧
    (∀ (e : Record) (msg : List (String × JSON)), mapGet e "message" = JSON.obj msg →
      isList (mapGet msg "content") = false → extractAssistantMessage e = none) ∧
    (∀ (e : Record) (msg : List (String × JSON)) (c : String),
      mapGet e "message" = JSON.obj msg → mapGet msg "content" = JSON.str c →
      extractAssistantMessage e = none) ∧
    (∀ es : List Record, (∀ e ∈ es, isMapping (mapGet e "message") = false) →
      BuildMessages es = []) ∧
    (∀ (T : TimeAPI) (es : List Record),
      ∃ (ms : List Message) (sm : SessionMeta),
        BuildMessages es = ms ∧ ExtractMeta T es = sm) := by
  have hU : ∀ e : Record, isMapping (mapGet e "message") = false →
      extractUserMessage e = none := by
    intro e h
    unfold extractUserMessage
    cases hm : mapGet e "message" <;> simp_all [isMapping]
  have hA : ∀ e : Record, isMapping (mapGet e "message") = false →
      extractAssistantMessage e = none := by
    intro e h
    unfold extractAssistantMessage
    cases hm : mapGet e "message" <;> simp_all [isMapping]
  have hA2 : ∀ (e : Record) (msg : List (String × JSON)), mapGet e "message" = JSON.obj msg →
      isList (mapGet msg "content") = false → extractAssistantMessage e = none := by
    intro e msg h1 h2
    unfold extractAssistantMessage
    rw [h1]
    dsimp only
    cases hc : mapGet msg "content" <;> simp_all [isList]
  refine ⟨hU, ?_, hA, hA2, ?_, ?_, ?_⟩
  · intro e msg h1 h2 h3
    unfold extractUserMessage
    rw [h1]
    dsimp only
    cases hc : mapGet msg "content" <;> simp_all [isString, isList]
  · intro e msg c h1 h2
    exact hA2 e msg h1 (by rw [h2]; rfl)
  · intro es h
    have hown : ∀ e ∈ es, contributes e = false := by
      intro e he
      simp [contributes, hU e (h e he), hA e (h e he)]
    have hfil : es.filter contributes = [] :=
      List.filter_eq_nil_iff.mpr (fun e he => by simp [hown e he])
    rw [BuildMessages_eq_run, ← run_filter_contributes, hfil]
    rfl
  · intro T es
    exact ⟨BuildMessages es, ExtractMeta T es, rfl, rfl⟩

/-- Witness for C10: a record without a `message` mapping and an assistant
record with string content yield no message. -/
theorem malformed_records_yield_no_message_witness :
    isMapping (mapGet summaryRecord "message") = false ∧
    extractUserMessage summaryRecord = none ∧
    extractAssistantMessage summaryRecord = none ∧
    extractAssistantMessage sampleAssistantString = none ∧
    BuildMessages [summaryRecord, summaryRecord] = [] :=
  ⟨rfl,
   malformed_records_yield_no_message.1 summaryRecord rfl,
   malformed_records_yield_no_message.2.2.1 summaryRecord rfl,
   malformed_records_yield_no_message.2.2.2.2.1 sampleAssistantString
     [("content", JSON.str "hello")] "hello" rfl rfl,
   malformed_records_yield_no_message.2.2.2.2.2.1 [summaryRecord, summaryRecord]
     (by decide)⟩

/-! ## isSystemContent -/

theorem startsWith_iff (s p : String) : startsWith s p = true ↔ p.data <+: s.data := by
  unfold startsWith
  exact List.isPrefixOf_iff_prefix

theorem containsChars_iff (l sub : List Char) : containsChars l sub = true ↔ sub <:+: l := by
  induction l with
  | nil =>
    cases sub with
    | nil => simp [containsChars]
    | cons a t => simp [containsChars]
  | cons c cs ih =>
    rw [containsChars, Bool.or_eq_true, ih, List.infix_cons_iff, List.isPrefixOf_iff_prefix]

theorem strContains_iff (s sub : String) : strContains s sub = true ↔ sub.data <:+: s.data := by
  unfold strContains
  exact containsChars_iff _ _

theorem isSystemContent_eq_true_iff (s : String) :
    isSystemContent s = true ↔
      (∃ p ∈ systemPrefixes, p.data <+: (TrimSpace s).data) ∨
      "<local-command-".data <:+: (TrimSpace s).data := by
  unfold isSystemContent
  dsimp only
  by_cases h1 : systemPrefixes.any (fun p => startsWith (TrimSpace s) p) = true
  · rw [if_pos h1]
    simp only [true_iff]
    left
    obtain ⟨p, hp, hs⟩ := List.any_eq_true.mp h1
    exact ⟨p, hp, (startsWith_iff _ _).mp hs⟩
  · rw [if_neg h1]
    have h1b : ¬ ∃ p ∈ systemPrefixes, p.data <+: (TrimSpace s).data := by
      rintro ⟨p, hp, hs⟩
      exact h1 (List.any_eq_true.mpr ⟨p, hp, (startsWith_iff _ _).mpr hs⟩)
    by_cases h2 : strContains (TrimSpace s) "<local-command-" = true
    · rw [if_pos h2]
      simp only [true_iff]
      right
      exact (strContains_iff _ _).mp h2
    · rw [if_neg h2]
      constructor
      · intro h; exact absurd h (by decide)
      · rintro (h | h)
        · exact absurd h h1b
        · exact absurd ((strContains_iff _ _).mpr h) h2

theorem isSpace_toLower (c : Char) : isSpace c.toLower = isSpace c := by
  unfold Char.toLower
  dsimp only
  split
  · rename_i h
    have hc : c = Char.ofNat c.toNat := (Char.ofNat_toNat c).symm
    generalize c.toNat = n at h hc
    obtain ⟨h1, h2⟩ := h
    subst hc
    interval_cases n <;> decide
  · rfl

theorem dropWhile_isSpace_map_toLower (l : List Char) :
    (l.map Char.toLower).dropWhile isSpace = (l.dropWhile isSpace).map Char.toLower := by
  rw [List.dropWhile_map]
  have : (isSpace ∘ Char.toLower) = isSpace := by
    funext c
    exact isSpace_toLower c
  rw [this]

theorem trimRightChars_map_toLower (l : List Char) :
    trimRightChars (l.map Char.toLower) = (trimRightChars l).map Char.toLower := by
  unfold trimRightChars
  rw [← List.map_reverse, dropWhile_isSpace_map_toLower, List.map_reverse]

theorem trimRightChars_length_le (l : List Char) : (trimRightChars l).length ≤ l.length := by
  unfold trimRightChars
  rw [List.length_reverse]
  have := (List.dropWhile_suffix (l := l.reverse) isSpace).length_le
  simpa using this

theorem trimRightChars_eq_of_length {l : List Char}
    (h : (trimRightChars l).length = l.length) : trimRightChars l = l := by
  unfold trimRightChars at h ⊢
  rw [List.length_reverse] at h
  have hs := List.dropWhile_suffix (l := l.reverse) isSpace
  have := hs.eq_of_length (by rw [h, List.length_reverse])
  rw [this, List.reverse_reverse]

/-- Trimming a character list that keeps its length leaves it unchanged. -/
theorem trim_eq_of_length {l : List Char}
    (h : (trimRightChars (l.dropWhile isSpace)).length = l.length) :
    trimRightChars (l.dropWhile isSpace) = l := by
  have h1 := trimRightChars_length_le (l.dropWhile isSpace)
  have h2 := (List.dropWhile_suffix (l := l) isSpace).length_le
  have h3 : (l.dropWhile isSpace).length = l.length := by omega
  have h4 : l.dropWhile isSpace = l := (List.dropWhile_suffix (l := l) isSpace).eq_of_length h3
  rw [h4] at h ⊢
  exact trimRightChars_eq_of_length h

theorem systemPrefixes_trimmed_lower :
    ∀ p ∈ systemPrefixes,
      trimRightChars ((p.data.map Char.toLower).dropWhile isSpace) = p.data.map Char.toLower := by
  decide

theorem systemPrefixes_lower_incomparable :
    ∀ p ∈ systemPrefixes, ∀ q ∈ systemPrefixes,
      (q.data.map Char.toLower).isPrefixOf (p.data.map Char.toLower) = true → q = p := by
  decide

/-- A string that differs from a system prefix only in letter case and does
not contain the local-command tag is not system content. -/
theorem isSystemContent_case_variant (s p : String) (hp : p ∈ systemPrefixes) (hne : s ≠ p)
    (hcase : s.data.map Char.toLower = p.data.map Char.toLower)
    (hloc : ¬ "<local-command-".data <:+: s.data) : isSystemContent s = false := by
  have htrim : (TrimSpace s).data = s.data := by
    unfold TrimSpace
    dsimp only
    apply trim_eq_of_length
    have h1 : (trimRightChars (s.data.dropWhile isSpace)).map Char.toLower =
        s.data.map Char.toLower := by
      rw [← trimRightChars_map_toLower, ← dropWhile_isSpace_map_toLower, hcase]
      exact systemPrefixes_trimmed_lower p hp
    have := congrArg List.length h1
    simpa using this
  have hnot : ¬ isSystemContent s = true := by
    rw [isSystemContent_eq_true_iff, htrim]
    rintro (⟨q, hq, hpre⟩ | hc)
    · have hmap := List.IsPrefix.map Char.toLower hpre
      rw [hcase] at hmap
      have hqp := systemPrefixes_lower_incomparable p hp q hq
        (List.isPrefixOf_iff_prefix.mpr hmap)
      subst hqp
      have hlen : q.data.length = s.data.length := by
        have := congrArg List.length hcase
        simpa using this.symm
      have hdata := hpre.eq_of_length hlen
      exact hne (String.ext hdata.symm)
    · exact hloc hc
  simpa using hnot

/-- C11: `isSystemContent s` holds exactly when the whitespace-trimmed `s`
starts with one of the eight fixed prefixes or contains "<local-command-"
anywhere; the match is case-sensitive, so a string that differs from one of the
prefixes only in letter case and does not contain "<local-command-" is not
system content. -/
theorem isSystemContent_iff_prefixes :
    (∀ s : String, isSystemContent s = true ↔
      ("<task-notification".data <+: (TrimSpace s).data ∨
       "<local-command-".data <+: (TrimSpace s).data ∨
       "<command-name>".data <+: (TrimSpace s).data ∨
       "<command-message>".data <+: (TrimSpace s).data ∨
       "[Request interrupted".data <+: (TrimSpace s).data ∨
       "# Quick Plan".data <+: (TrimSpace s).data ∨
       "<system-reminder>".data <+: (TrimSpace s).data ∨
       "This session is being continued from a previous conversation".data <+:
         (TrimSpace s).data) ∨
      "<local-command-".data <:+: (TrimSpace s).data) ∧
    (∀ s p : String, p ∈ systemPrefixes → s ≠ p →
      s.data.map Char.toLower = p.data.map Char.toLower →
      ¬ "<local-command-".data <:+: s.data → isSystemContent s = false) := by
  refine ⟨fun s => ?_, isSystemContent_case_variant⟩
  rw [isSystemContent_eq_true_iff]
  simp only [systemPrefixes, List.mem_cons, List.mem_singleton, exists_eq_or_imp,
    exists_eq_left, List.not_mem_nil, false_and, exists_false, or_false, or_assoc]

/-- Witness for C11: the system-reminder tag written with capital letters is
not system content, the tag itself is. -/
theorem isSystemContent_iff_prefixes_witness :
    "<system-reminder>" ∈ systemPrefixes ∧ "<System-Reminder>" ≠ "<system-reminder>" ∧
    "<System-Reminder>".data.map Char.toLower = "<system-reminder>".data.map Char.toLower ∧
    isSystemContent "<System-Reminder>" = false ∧
    isSystemContent "  <system-reminder>foo" = true :=
  ⟨by decide, by decide, by decide,
   isSystemContent_iff_prefixes.2 "<System-Reminder>" "<system-reminder>" (by decide)
     (by decide) (by decide)
     (fun h => absurd ((containsChars_iff _ _).mpr h) (by decide)),
   by decide⟩

/-! ## isOnlyToolResults -/

theorem trimRightChars_idem (l : List Char) :
    trimRightChars (trimRightChars l) = trimRightChars l := by
  unfold trimRightChars
  rw [List.reverse_reverse, List.dropWhile_idempotent]

theorem trimRightChars_isPrefix (l : List Char) : trimRightChars l <+: l := by
  unfold trimRightChars
  have h := List.dropWhile_suffix (l := l.reverse) isSpace
  rw [← List.reverse_suffix]
  simpa using h

theorem dropWhile_isSpace_trimmed (l : List Char) :
    (trimRightChars (l.dropWhile isSpace)).dropWhile isSpace =
      trimRightChars (l.dropWhile isSpace) := by
  have hpre := trimRightChars_isPrefix (l.dropWhile isSpace)
  cases hT : trimRightChars (l.dropWhile isSpace) with
  | nil => rfl
  | cons a t =>
    rw [hT] at hpre
    cases hM : l.dropWhile isSpace with
    | nil =>
      rw [hM] at hpre
      exact absurd (List.prefix_nil.mp hpre) (by simp)
    | cons b m =>
      rw [hM] at hpre
      have hab : a = b := by
        obtain ⟨r, hr⟩ := hpre
        simp only [List.cons_append, List.cons.injEq] at hr
        exact hr.1
      have hb : isSpace b = false := by
        have := List.head_dropWhile_not isSpace l (by rw [hM]; simp)
        simpa [hM] using this
      rw [hab, List.dropWhile_cons, hb]
      rfl

/-- Go `strings.TrimSpace` is idempotent. -/
theorem TrimSpace_idem (s : String) : TrimSpace (TrimSpace s) = TrimSpace s := by
  unfold TrimSpace
  dsimp only
  rw [dropWhile_isSpace_trimmed, trimRightChars_idem]

theorem isSystemContent_TrimSpace (s : String) :
    isSystemContent (TrimSpace s) = isSystemContent s := by
  unfold isSystemContent
  dsimp only
  rw [TrimSpace_idem]

theorem onlyToolStep_true_iff (b : JSON) :
    onlyToolStep false b = true ↔
      isBlockOfType "image" b = true ∨
      (isBlockOfType "text" b = true ∧ trimmedText b ≠ "" ∧
        isSystemContent (trimmedText b) = false) ∨
      (∃ s, b = JSON.str s ∧ TrimSpace s ≠ "" ∧ isSystemContent (TrimSpace s) = false) := by
  have hti : ¬ (("text" : String) = "image") := by decide
  cases b with
  | obj bm =>
    unfold onlyToolStep
    dsimp only
    cases hty : mapGet bm "type" with
    | str ty =>
      dsimp only
      by_cases h1 : ty = "text"
      · subst h1
        simp [isBlockOfType, isMapping, blockField, hty, isStringValue, trimmedText, hti]
      · by_cases h3 : ty = "image"
        · subst h3
          simp [isBlockOfType, isMapping, blockField, hty, isStringValue]
        · simp [isBlockOfType, isMapping, blockField, hty, isStringValue, h1, h3]
    | null => simp [isBlockOfType, isMapping, blockField, hty, isStringValue]
    | bool x => simp [isBlockOfType, isMapping, blockField, hty, isStringValue]
    | num x => simp [isBlockOfType, isMapping, blockField, hty, isStringValue]
    | arr x => simp [isBlockOfType, isMapping, blockField, hty, isStringValue]
    | obj x => simp [isBlockOfType, isMapping, blockField, hty, isStringValue]
  | str x =>
    unfold onlyToolStep
    dsimp only
    simp [isBlockOfType, isMapping, isSystemContent_TrimSpace]
  | null => simp [onlyToolStep, isBlockOfType, isMapping]
  | bool x => simp [onlyToolStep, isBlockOfType, isMapping]
  | num x => simp [onlyToolStep, isBlockOfType, isMapping]
  | arr x => simp [onlyToolStep, isBlockOfType, isMapping]

/-- C12: `isOnlyToolResults blocks` holds exactly when no block carries
content: no block is an "image" mapping, no block is a "text" mapping whose
trimmed text is non-empty and not system content, and no block is a plain
string whose trimmed text is non-empty and not system content. In particular
it holds for the empty list and for a list of tool_result blocks, and blocks of
other types never make it false. -/
theorem isOnlyToolResults_iff_no_content :
    (∀ blocks : List JSON, isOnlyToolResults blocks = true ↔
      ¬ ∃ b ∈ blocks,
        isBlockOfType "image" b = true ∨
        (isBlockOfType "text" b = true ∧ trimmedText b ≠ "" ∧
          isSystemContent (trimmedText b) = false) ∨
        (∃ s, b = JSON.str s ∧ TrimSpace s ≠ "" ∧ isSystemContent (TrimSpace s) = false)) ∧
    isOnlyToolResults [] = true ∧
    (∀ blocks : List JSON, (∀ b ∈ blocks, isBlockOfType "tool_result" b = true) →
      isOnlyToolResults blocks = true) ∧
    (∀ blocks : List JSON,
      (∀ b ∈ blocks, isMapping b = true ∧ isBlockOfType "text" b = false ∧
        isBlockOfType "image" b = false) →
      isOnlyToolResults blocks = true) := by
  have hiff : ∀ blocks : List JSON, isOnlyToolResults blocks = true ↔
      ¬ ∃ b ∈ blocks,
        isBlockOfType "image" b = true ∨
        (isBlockOfType "text" b = true ∧ trimmedText b ≠ "" ∧
          isSystemContent (trimmedText b) = false) ∨
        (∃ s, b = JSON.str s ∧ TrimSpace s ≠ "" ∧ isSystemContent (TrimSpace s) = false) := by
    intro blocks
    rw [isOnlyToolResults_iff]
    constructor
    · rintro h ⟨b, hb, hc⟩
      have := (onlyToolStep_true_iff b).mpr hc
      rw [h b hb] at this
      exact absurd this (by decide)
    · intro h b hb
      by_contra hc
      have hc2 : onlyToolStep false b = true := by simpa using hc
      exact h ⟨b, hb, (onlyToolStep_true_iff b).mp hc2⟩
  have hother : ∀ blocks : List JSON,
      (∀ b ∈ blocks, isMapping b = true ∧ isBlockOfType "text" b = false ∧
        isBlockOfType "image" b = false) →
      isOnlyToolResults blocks = true := by
    intro blocks h
    rw [hiff]
    rintro ⟨b, hb, hc⟩
    obtain ⟨hm, ht, hi⟩ := h b hb
    rcases hc with hc | ⟨hc, _⟩ | ⟨s, hs, _⟩
    · rw [hi] at hc; exact absurd hc (by decide)
    · rw [ht] at hc; exact absurd hc (by decide)
    · rw [hs] at hm; simp [isMapping] at hm
  refine ⟨hiff, rfl, ?_, hother⟩
  intro blocks h
  apply hother
  intro b hb
  have hb2 := h b hb
  unfold isBlockOfType at hb2 ⊢
  simp only [Bool.and_eq_true] at hb2
  obtain ⟨hm, hty⟩ := hb2
  refine ⟨hm, ?_, ?_⟩
  · cases hv : blockField b "type" with
    | str t =>
      rw [hv] at hty
      have : t = "tool_result" := by simpa [isStringValue] using hty
      subst this
      simp [hm, isStringValue]
    | null => simp [isStringValue]
    | bool x => simp [isStringValue]
    | num x => simp [isStringValue]
    | arr x => simp [isStringValue]
    | obj x => simp [isStringValue]
  · cases hv : blockField b "type" with
    | str t =>
      rw [hv] at hty
      have : t = "tool_result" := by simpa [isStringValue] using hty
      subst this
      simp [hm, isStringValue]
    | null => simp [isStringValue]
    | bool x => simp [isStringValue]
    | num x => simp [isStringValue]
    | arr x => simp [isStringValue]
    | obj x => simp [isStringValue]

/-- Witness for C12: a user turn of tool results and system noise only. -/
theorem isOnlyToolResults_iff_no_content_witness :
    (∀ b ∈ [JSON.obj [("type", JSON.str "tool_result"), ("content", JSON.str "ok")],
        JSON.obj [("type", JSON.str "tool_result")]],
      isBlockOfType "tool_result" b = true) ∧
    isOnlyToolResults [JSON.obj [("type", JSON.str "tool_result"), ("content", JSON.str "ok")],
      JSON.obj [("type", JSON.str "tool_result")]] = true ∧
    isOnlyToolResults [textBlock "<system-reminder>x</system-reminder>", textBlock "  "] = true ∧
    isOnlyToolResults [JSON.str "loose string"] = false ∧
    isOnlyToolResults [JSON.obj [("type", JSON.str "image")]] = false :=
  ⟨by decide,
   isOnlyToolResults_iff_no_content.2.2.1 _ (by decide),
   by decide, by decide, by decide⟩

/-! ## The loop of ExtractMeta -/

theorem metaStep_title (st : MetaState) (e : Record) :
    (metaStep st e).title =
      if entryType e = "custom-title" then asString (mapGet e "customTitle") else st.title := rfl

theorem effectiveTimestamp_eq (e : Record) :
    effectiveTimestamp e =
      if asString (mapGet e "timestamp") = "" then
        match mapGet e "snapshot" with
        | JSON.obj snap => asString (mapGet snap "timestamp")
        | _ => asString (mapGet e "timestamp")
      else asString (mapGet e "timestamp") := by
  unfold effectiveTimestamp
  by_cases h : asString (mapGet e "timestamp") = ""
  · rw [if_pos h, if_neg (not_not.mpr h)]
    cases mapGet e "snapshot" <;> first | rfl | exact h.symm
  · rw [if_neg h, if_pos h]

theorem metaStep_firstTS (st : MetaState) (e : Record) :
    (metaStep st e).firstTS =
      if effectiveTimestamp e ≠ "" then
        (if st.firstTS = "" then effectiveTimestamp e else st.firstTS)
      else st.firstTS := by
  rw [effectiveTimestamp_eq]
  rfl

theorem metaStep_lastTS (st : MetaState) (e : Record) :
    (metaStep st e).lastTS =
      if effectiveTimestamp e ≠ "" then effectiveTimestamp e else st.lastTS := by
  rw [effectiveTimestamp_eq]
  rfl

theorem metaStep_model (st : MetaState) (e : Record) :
    (metaStep st e).model =
      if st.model = "" ∧ entryType e = "assistant" then
        asString (blockField (mapGet e "message") "model")
      else st.model := by
  unfold metaStep entryType
  dsimp only
  by_cases h : st.model = "" ∧ asString (mapGet e "type") = "assistant"
  · rw [if_pos h, if_pos h]
    cases mapGet e "message" <;> simp [blockField, asString, h.1]
  · rw [if_neg h, if_neg h]

theorem customTitles_cons (e : Record) (es : List Record) :
    customTitles (e :: es) =
      (if entryType e = "custom-title" then [asString (mapGet e "customTitle")] else []) ++
        customTitles es := by
  unfold customTitles
  by_cases h : entryType e = "custom-title"
  · simp [h]
  · simp [h]

theorem timestamps_cons (e : Record) (es : List Record) :
    timestamps (e :: es) =
      (if effectiveTimestamp e ≠ "" then [effectiveTimestamp e] else []) ++ timestamps es := by
  unfold timestamps
  by_cases h : effectiveTimestamp e = ""
  · simp [h]
  · simp [h]

theorem assistantModels_cons (e : Record) (es : List Record) :
    assistantModels (e :: es) =
      (if entryType e = "assistant" ∧ asString (blockField (mapGet e "message") "model") ≠ ""
        then [asString (blockField (mapGet e "message") "model")] else []) ++
        assistantModels es := by
  unfold assistantModels
  by_cases h : entryType e = "assistant"
  · by_cases h2 : asString (blockField (mapGet e "message") "model") = ""
    · simp [h, h2]
    · simp [h, h2]
  · simp [h]

theorem getLast?_singleton_append_getD (x d : String) (l : List String) :
    (([x] ++ l).getLast?).getD d = (l.getLast?).getD x := by
  cases l with
  | nil => rfl
  | cons a t =>
    rw [List.singleton_append, List.getLast?_cons_cons]
    cases h : (a :: t).getLast? with
    | none => exact absurd (List.getLast?_eq_none_iff.mp h) (by simp)
    | some b => rfl

theorem foldl_metaStep_title (es : List Record) (st : MetaState) :
    (es.foldl metaStep st).title = ((customTitles es).getLast?).getD st.title := by
  induction es generalizing st with
  | nil => rfl
  | cons e es ih =>
    rw [List.foldl_cons, ih, metaStep_title, customTitles_cons]
    by_cases h : entryType e = "custom-title"
    · rw [if_pos h, if_pos h, getLast?_singleton_append_getD]
    · rw [if_neg h, if_neg h, List.nil_append]

theorem foldl_metaStep_lastTS (es : List Record) (st : MetaState) :
    (es.foldl metaStep st).lastTS = ((timestamps es).getLast?).getD st.lastTS := by
  induction es generalizing st with
  | nil => rfl
  | cons e es ih =>
    rw [List.foldl_cons, ih, metaStep_lastTS, timestamps_cons]
    by_cases h : effectiveTimestamp e ≠ ""
    · rw [if_pos h, if_pos h, getLast?_singleton_append_getD]
    · rw [if_neg h, if_neg h, List.nil_append]

theorem foldl_metaStep_firstTS (es : List Record) (st : MetaState) :
    (es.foldl metaStep st).firstTS =
      if st.firstTS = "" then ((timestamps es).head?).getD "" else st.firstTS := by
  induction es generalizing st with
  | nil =>
    by_cases h : st.firstTS = ""
    · simp [timestamps, h]
    · simp [h]
  | cons e es ih =>
    rw [List.foldl_cons, ih, metaStep_firstTS, timestamps_cons]
    by_cases h : effectiveTimestamp e ≠ ""
    · rw [if_pos h, if_pos h]
      by_cases h2 : st.firstTS = ""
      · rw [if_pos h2, if_neg h, if_pos h2]
        simp
      · rw [if_neg h2, if_neg h2, if_neg h2]
    · rw [if_neg h, if_neg h, List.nil_append]

theorem foldl_metaStep_model (es : List Record) (st : MetaState) :
    (es.foldl metaStep st).model =
      if st.model = "" then ((assistantModels es).head?).getD "" else st.model := by
  induction es generalizing st with
  | nil =>
    by_cases h : st.model = ""
    · simp [assistantModels, h]
    · simp [h]
  | cons e es ih =>
    rw [List.foldl_cons, ih, metaStep_model, assistantModels_cons]
    by_cases h2 : st.model = ""
    · by_cases ha : entryType e = "assistant"
      · by_cases hm : asString (blockField (mapGet e "message") "model") = ""
        · simp [h2, ha, hm]
        · simp [h2, ha, hm]
      · simp [h2, ha]
    · simp [h2]

/-- The model bucket of `ExtractMeta` applied to the raw model string. -/
theorem ExtractMeta_Model (T : TimeAPI) (es : List Record) :
    (ExtractMeta T es).Model =
      if strContains (if firstModel es = "" then "Claude" else firstModel es) "opus" = true
        then "Claude Opus"
      else if strContains (if firstModel es = "" then "Claude" else firstModel es) "sonnet" = true
        then "Claude Sonnet"
      else if strContains (if firstModel es = "" then "Claude" else firstModel es) "haiku" = true
        then "Claude Haiku"
      else (if firstModel es = "" then "Claude" else firstModel es) := by
  unfold ExtractMeta firstModel
  dsimp only
  rw [foldl_metaStep_model]
  simp

theorem ExtractMeta_Title (T : TimeAPI) (es : List Record) :
    (ExtractMeta T es).Title =
      if ((customTitles es).getLast?).getD "" = "" then "Untitled Session"
      else ((customTitles es).getLast?).getD "" := by
  unfold ExtractMeta
  dsimp only
  rw [foldl_metaStep_title]

theorem ExtractMeta_DateRange (T : TimeAPI) (es : List Record) :
    (ExtractMeta T es).DateRange =
      if formatDate T (startTimestamp es) ≠ "" ∧ formatDate T (endTimestamp es) ≠ "" ∧
          formatDate T (startTimestamp es) ≠ formatDate T (endTimestamp es) then
        formatDate T (startTimestamp es) ++ " - " ++ formatDate T (endTimestamp es)
      else if formatDate T (startTimestamp es) ≠ "" then formatDate T (startTimestamp es)
      else "" := by
  unfold ExtractMeta startTimestamp endTimestamp
  dsimp only
  rw [foldl_metaStep_firstTS, foldl_metaStep_lastTS]
  simp

theorem formatDate_empty (T : TimeAPI) : formatDate T "" = "" := by
  unfold formatDate
  simp
/-! ## Properties of `ExtractMeta` -/

/-- C13 (as amended): let `m` be the model string of the first assistant record
that has a non-empty one. If `m` contains "sonnet" and does not contain "opus"
then the display model is "Claude Sonnet"; if `m` contains "opus" it is
"Claude Opus", whatever else it contains; if no assistant record has a model
it is "Claude". -/
theorem extractMeta_model_bucket (T : TimeAPI) (es : List Record) :
    ("sonnet".data <:+: (firstModel es).data → ¬ "opus".data <:+: (firstModel es).data →
      (ExtractMeta T es).Model = "Claude Sonnet") ∧
    ("opus".data <:+: (firstModel es).data → (ExtractMeta T es).Model = "Claude Opus") ∧
    (assistantModels es = [] → (ExtractMeta T es).Model = "Claude") := by
  have hne : ∀ sub : String, sub.data ≠ [] → sub.data <:+: (firstModel es).data →
      firstModel es ≠ "" := by
    intro sub hsub h hc
    rw [hc] at h
    exact hsub (List.infix_nil.mp h)
  refine ⟨?_, ?_, ?_⟩
  · intro hs ho
    have hm := hne "sonnet" (by decide) hs
    have h1 : ¬ strContains (firstModel es) "opus" = true :=
      fun hc => ho ((strContains_iff _ _).mp hc)
    have h2 : strContains (firstModel es) "sonnet" = true := (strContains_iff _ _).mpr hs
    rw [ExtractMeta_Model, if_neg hm, if_neg h1, if_pos h2]
  · intro ho
    have hm := hne "opus" (by decide) ho
    have h1 : strContains (firstModel es) "opus" = true := (strContains_iff _ _).mpr ho
    rw [ExtractMeta_Model, if_neg hm, if_pos h1]
  · intro hnil
    have hm : firstModel es = "" := by simp [firstModel, hnil]
    rw [ExtractMeta_Model, if_pos hm]
    decide

/-- Witness for C13 (as amended): a sonnet model after an assistant record
without a model. -/
theorem extractMeta_model_bucket_witness :
    firstModel sampleSonnetModel = "claude-sonnet-4" ∧
    (ExtractMeta goTime sampleSonnetModel).Model = "Claude Sonnet" :=
  ⟨by decide,
   (extractMeta_model_bucket goTime sampleSonnetModel).1
     ((containsChars_iff _ _).mp (by decide))
     (fun h => absurd ((containsChars_iff _ _).mpr h) (by decide))⟩

/-- Counterexample to C13 as stated: the first assistant model string contains
"sonnet" but the display model is "Claude Opus". -/
theorem extractMeta_model_sonnet_counterexample :
    firstModel sampleMixedModel = "opus-or-sonnet" ∧
    strContains (firstModel sampleMixedModel) "sonnet" = true ∧
    (ExtractMeta goTime sampleMixedModel).Model = "Claude Opus" ∧
    (ExtractMeta goTime sampleMixedModel).Model ≠ "Claude Sonnet" := by
  decide

/-- C14 (as amended): the title is the `customTitle` of the last record of type
"custom-title" when that string is non-empty, and it is "Untitled Session"
when the sequence has no custom-title record or when the `customTitle` string
of the last one is empty. -/
theorem extractMeta_title_last (T : TimeAPI) (es : List Record) :
    (∀ t : String, (customTitles es).getLast? = some t → t ≠ "" →
      (ExtractMeta T es).Title = t) ∧
    ((customTitles es).getLast? = some "" → (ExtractMeta T es).Title = "Untitled Session") ∧
    (customTitles es = [] → (ExtractMeta T es).Title = "Untitled Session") := by
  refine ⟨?_, ?_, ?_⟩
  · intro t ht hne
    rw [ExtractMeta_Title, ht]
    simp [hne]
  · intro ht
    rw [ExtractMeta_Title, ht]
    simp
  · intro hnil
    rw [ExtractMeta_Title, hnil]
    simp

/-- Witness for C14 (as amended): the later of two custom titles wins. -/
theorem extractMeta_title_last_witness :
    (customTitles sampleTwoTitles).getLast? = some "Fix date range" ∧
    (ExtractMeta goTime sampleTwoTitles).Title = "Fix date range" :=
  ⟨by decide,
   (extractMeta_title_last goTime sampleTwoTitles).1 "Fix date range" (by decide) (by decide)⟩

/-- Counterexample to C14 as stated: the last custom-title record has the empty
`customTitle`, and the title is "Untitled Session", not the empty string. -/
theorem extractMeta_title_empty_counterexample :
    (customTitles sampleEmptyTitle).getLast? = some "" ∧
    (ExtractMeta goTime sampleEmptyTitle).Title = "Untitled Session" ∧
    (ExtractMeta goTime sampleEmptyTitle).Title ≠ "" := by
  decide

/-- C15: when the start timestamp (the first non-empty effective timestamp) and
the end timestamp (the last one by position) both format to a date, the date
range is the start date alone when the two dates are the same, and
"start - end" when they are different. -/
theorem extractMeta_same_or_pair (T : TimeAPI) (es : List Record)
    (hs : formatDate T (startTimestamp es) ≠ "")
    (he : formatDate T (endTimestamp es) ≠ "") :
    (formatDate T (startTimestamp es) = formatDate T (endTimestamp es) →
      (ExtractMeta T es).DateRange = formatDate T (startTimestamp es)) ∧
    (formatDate T (startTimestamp es) ≠ formatDate T (endTimestamp es) →
      (ExtractMeta T es).DateRange =
        formatDate T (startTimestamp es) ++ " - " ++ formatDate T (endTimestamp es)) := by
  refine ⟨?_, ?_⟩
  · intro heq
    rw [ExtractMeta_DateRange, if_neg (fun hc => hc.2.2 heq), if_pos hs]
  · intro hne
    rw [ExtractMeta_DateRange, if_pos ⟨hs, he, hne⟩]

/-- Witness for C15: 2024-01-01T10:00:00Z and 2024-01-01T15:00:00Z are the same
calendar day and give the single date "Jan 01, 2024". -/
theorem extractMeta_same_or_pair_witness :
    startTimestamp sampleSameDay = "2024-01-01T10:00:00Z" ∧
    endTimestamp sampleSameDay = "2024-01-01T15:00:00Z" ∧
    formatDate goTime (startTimestamp sampleSameDay) = "Jan 01, 2024" ∧
    formatDate goTime (endTimestamp sampleSameDay) = "Jan 01, 2024" ∧
    (ExtractMeta goTime sampleSameDay).DateRange =
      formatDate goTime (startTimestamp sampleSameDay) ∧
    (ExtractMeta goTime sampleTwoDays).DateRange = "Jan 01, 2024 - Jan 03, 2024" :=
  ⟨by decide, by decide, by decide, by decide,
   (extractMeta_same_or_pair goTime sampleSameDay (by decide) (by decide)).1 (by decide),
   by decide⟩

/-- C16 (as amended): the date range is empty when the start timestamp is
unparseable and when no record has any timestamp; when the start timestamp
formats to a date and only the end timestamp is unparseable, the date range is
the start date alone. -/
theorem extractMeta_unparseable_range (T : TimeAPI) (es : List Record) :
    (formatDate T (startTimestamp es) = "" → (ExtractMeta T es).DateRange = "") ∧
    (timestamps es = [] → (ExtractMeta T es).DateRange = "") ∧
    (formatDate T (startTimestamp es) ≠ "" → formatDate T (endTimestamp es) = "" →
      (ExtractMeta T es).DateRange = formatDate T (startTimestamp es)) := by
  have h1 : formatDate T (startTimestamp es) = "" → (ExtractMeta T es).DateRange = "" := by
    intro hs
    rw [ExtractMeta_DateRange, if_neg (fun hc => hc.1 hs), if_neg (not_not.mpr hs)]
  refine ⟨h1, ?_, ?_⟩
  · intro hnil
    apply h1
    have : startTimestamp es = "" := by simp [startTimestamp, hnil]
    rw [this, formatDate_empty]
  · intro hs he
    rw [ExtractMeta_DateRange, if_neg (fun hc => hc.2.1 he), if_pos hs]

/-- Witness for C16 (as amended): an unparseable first timestamp gives the
empty date range. -/
theorem extractMeta_unparseable_range_witness :
    formatDate goTime (startTimestamp sampleBadStart) = "" ∧
    (ExtractMeta goTime sampleBadStart).DateRange = "" :=
  ⟨by decide, (extractMeta_unparseable_range goTime sampleBadStart).1 (by decide)⟩

/-- Counterexample to C16 as stated: the end timestamp is unparseable and the
date range is the start date, not the empty string. -/
theorem extractMeta_bad_end_counterexample :
    endTimestamp sampleBadEnd = "not a date" ∧
    formatDate goTime (endTimestamp sampleBadEnd) = "" ∧
    (ExtractMeta goTime sampleBadEnd).DateRange = "Jan 01, 2024" ∧
    (ExtractMeta goTime sampleBadEnd).DateRange ≠ "" := by
  decide

/-! ## Tool display names and the tool label -/

/-- C17 (as amended): for a tool name that is not a key of the display-name
table, that starts with "mcp__" and that has at least three segments when
split on "__", `ToolDisplayName` is the title-cased last segment with every
"-" and "_" replaced by a space; with fewer than three segments the generic
rule applies (title case of the whole name with "_" replaced by a space); a
name that is a key of the table maps to its label, "Read" to "Read file". -/
theorem toolDisplayName_mcp (up : Char → Char) (name : String) :
    (lookupLabel toolDisplayNames name = none → "mcp__".data <+: name.data →
      3 ≤ (splitUnderscores name).length →
      ToolDisplayName up name =
        titleCase up (replaceDashUnderscore (((splitUnderscores name).getLast?).getD ""))) ∧
    (lookupLabel toolDisplayNames name = none → "mcp__".data <+: name.data →
      (splitUnderscores name).length < 3 →
      ToolDisplayName up name = titleCase up (replaceUnderscore name)) ∧
    (∀ label, lookupLabel toolDisplayNames name = some label →
      ToolDisplayName up name = label) ∧
    ToolDisplayName up "Read" = "Read file" := by
  refine ⟨?_, ?_, ?_, ?_⟩
  · intro hl hp hlen
    have hs : startsWith name "mcp__" = true := (startsWith_iff _ _).mpr hp
    unfold ToolDisplayName
    rw [hl]
    dsimp only
    rw [if_pos ⟨hs, hlen⟩]
  · intro hl _ hlen
    unfold ToolDisplayName
    rw [hl]
    dsimp only
    rw [if_neg (fun hc => absurd hc.2 (by omega))]
  · intro label hl
    unfold ToolDisplayName
    rw [hl]
  · rfl

set_option maxRecDepth 8000 in
/-- Witness for C17 (as amended): a tool of an MCP server. -/
theorem toolDisplayName_mcp_witness :
    lookupLabel toolDisplayNames "mcp__github__create_pull-request" = none ∧
    splitUnderscores "mcp__github__create_pull-request" =
      ["mcp", "github", "create_pull-request"] ∧
    ToolDisplayName asciiUpper "mcp__github__create_pull-request" =
      titleCase asciiUpper (replaceDashUnderscore
        (((splitUnderscores "mcp__github__create_pull-request").getLast?).getD "")) ∧
    titleCase asciiUpper (replaceDashUnderscore "create_pull-request") =
      "Create Pull Request" :=
  ⟨by decide, by decide,
   (toolDisplayName_mcp asciiUpper "mcp__github__create_pull-request").1 (by decide)
     (List.isPrefixOf_iff_prefix.mp (by decide)) (by decide),
   by decide⟩

set_option maxRecDepth 8000 in
/-- Counterexample to C17 as stated: "mcp__search" is not a key of the table
and starts with "mcp__", its last segment is "search", but the display name is
"Mcp  Search" and not "Search". -/
theorem toolDisplayName_two_segments_counterexample :
    lookupLabel toolDisplayNames "mcp__search" = none ∧
    startsWith "mcp__search" "mcp__" = true ∧
    splitUnderscores "mcp__search" = ["mcp", "search"] ∧
    titleCase asciiUpper (replaceDashUnderscore "search") = "Search" ∧
    ToolDisplayName asciiUpper "mcp__search" = "Mcp  Search" ∧
    ToolDisplayName asciiUpper "mcp__search" ≠
      titleCase asciiUpper (replaceDashUnderscore
        (((splitUnderscores "mcp__search").getLast?).getD "")) := by
  decide

theorem toolGroup_of_mem_run {es : List Record} {p : List String} {m : Message}
    (h : m ∈ run p es) (hr : m.Role = "tool_group") :
    m = toolGroup m.ToolNames ∧ m.ToolNames ≠ [] := by
  induction es generalizing p with
  | nil =>
    obtain ⟨hm, hp⟩ := mem_flushed (by simpa [run] using h)
    subst hm
    exact ⟨rfl, hp⟩
  | cons e es ih =>
    cases ho : ownMessage e with
    | none =>
      rw [run_cons_none _ _ ho] at h
      exact ih h
    | some r =>
      rw [run_cons_some _ _ ho, List.mem_append, List.mem_cons] at h
      rcases h with h | h | h
      · obtain ⟨hm, hp⟩ := mem_flushed h
        subst hm
        exact ⟨rfl, hp⟩
      · subst h
        exact absurd hr (ownMessage_role ho)
      · exact ih h

/-- C18: for a tool_group message of `BuildMessages entries`, the label that
the renderer computes is `ToolDisplayName` of the single tool name when
`ToolNames` has exactly one element, and otherwise the decimal length `N` of
`ToolNames` followed by " tool actions performed", with `N ≥ 2`; `ToolNames`
is never empty, so the empty label is never produced. -/
theorem toolLabel_of_toolGroup (up : Char → Char) (entries : List Record) (g : Message)
    (hmem : g ∈ BuildMessages entries) (hg : g.Role = "tool_group") :
    (∀ name, g.ToolNames = [name] → toolLabel up g = ToolDisplayName up name) ∧
    (g.ToolNames.length ≠ 1 →
      2 ≤ g.ToolNames.length ∧
      toolLabel up g = Nat.repr g.ToolNames.length ++ " tool actions performed") ∧
    g.ToolNames.length ≠ 0 := by
  rw [BuildMessages_eq_run] at hmem
  obtain ⟨_, hne⟩ := toolGroup_of_mem_run hmem hg
  have hlen : g.ToolNames.length ≠ 0 := fun hc => hne (List.length_eq_zero.mp hc)
  refine ⟨?_, ?_, hlen⟩
  · intro name hn
    unfold toolLabel
    rw [if_pos hg, hn]
    rfl
  · intro h1
    have h2 : 2 ≤ g.ToolNames.length := by omega
    refine ⟨h2, ?_⟩
    unfold toolLabel
    rw [if_pos hg, if_neg h1, if_pos (by omega)]
    rfl

set_option maxRecDepth 8000 in
/-- Witness for C18: the two tool groups of the sample session. -/
theorem toolLabel_of_toolGroup_witness :
    toolGroup ["Read"] ∈ BuildMessages sampleSession ∧
    toolLabel asciiUpper (toolGroup ["Read"]) = ToolDisplayName asciiUpper "Read" ∧
    ToolDisplayName asciiUpper "Read" = "Read file" ∧
    toolGroup ["Bash", "Grep", "Edit"] ∈ BuildMessages sampleSession ∧
    toolLabel asciiUpper (toolGroup ["Bash", "Grep", "Edit"]) = "3 tool actions performed" :=
  ⟨by decide,
   (toolLabel_of_toolGroup asciiUpper sampleSession (toolGroup ["Read"]) (by decide) rfl).1
     "Read" rfl,
   by decide, by decide, by decide⟩

/-! ## FindByQuery -/

/-- C19, the code at the failing input: two sessions whose titles both equal
the query up to letter case. Both satisfy the exact-title rule, and
`FindByQuery` returns the first of them with no ambiguity list; the same
happens for a session-ID prefix shared by both, while the title-substring rule
does return both as ambiguous. -/
theorem findByQuery_exact_title_first_match :
    (sampleSessions.filter
      (fun s => decide (asciiLower s.Title = asciiLower (TrimSpace "deploy")))).length = 2 ∧
    FindByQuery asciiLower sampleSessions "deploy" =
      (some (sampleInfo "Deploy" "a1b2c3d4-1111-4111-8111-111111111111" "Users/dev/projects/api"), []) ∧
    (sampleSessions.filter
      (fun s => startsWith (asciiLower s.SessionID) (asciiLower (TrimSpace "a1b2")))).length
        = 2 ∧
    FindByQuery asciiLower sampleSessions "a1b2" =
      (some (sampleInfo "Deploy" "a1b2c3d4-1111-4111-8111-111111111111" "Users/dev/projects/api"), []) ∧
    FindByQuery asciiLower sampleSessions "eplo" = (none, sampleSessions) := by
  decide
/-! ## Separation of tool groups -/

/-- C20: a tool_group of `BuildMessages entries` is either the last message or
immediately followed by a "user" message or a text-bearing "assistant"
message, so two tool_group messages are never adjacent; and every tool_group
has empty `Texts`, empty `Images` and an empty `Timestamp`. -/
theorem buildMessages_toolGroup_separated (entries : List Record) (pre post : List Message)
    (g : Message) (hsplit : BuildMessages entries = pre ++ g :: post)
    (hg : g.Role = "tool_group") :
    (post = [] ∨ ∃ m rest, post = m :: rest ∧
      (m.Role = "user" ∨ (m.Role = "assistant" ∧ m.Texts ≠ []))) ∧
    (∀ m rest, post = m :: rest → m.Role ≠ "tool_group") ∧
    g.Texts = [] ∧ g.Images = [] ∧ g.Timestamp = "" := by
  rw [BuildMessages_eq_run] at hsplit
  have hnext : post = [] ∨ ∃ m rest, post = m :: rest ∧
      (m.Role = "user" ∨ (m.Role = "assistant" ∧ m.Texts ≠ [])) := by
    obtain ⟨b, s, r, _, _, hr, _, _, _, hpost⟩ :=
      toolGroup_segment_aux entries.length entries (Nat.le_refl _) pre post g hsplit hg
    rcases hr with hr | ⟨e, r2, hr, hf⟩
    · left
      rw [← hpost, hr]
      rfl
    · right
      obtain ⟨m, hm⟩ := Option.isSome_iff_exists.mp hf
      refine ⟨m, run [] r2, ?_, ?_⟩
      · rw [← hpost, hr, run_cons_some _ _ hm, flushed_nil, List.nil_append]
      · rcases ownMessage_some hm with ⟨_, _, hrole, _⟩ | ⟨_, _, hrole, ht⟩
        · exact Or.inl hrole
        · exact Or.inr ⟨hrole, ht⟩
  have hmem : g ∈ run [] entries := by rw [hsplit]; simp
  obtain ⟨hgeq, _⟩ := toolGroup_of_mem_run hmem hg
  refine ⟨hnext, ?_, ?_, ?_, ?_⟩
  · intro m rest hp
    rcases hnext with hnil | ⟨m2, rest2, hp2, hrole⟩
    · rw [hnil] at hp
      exact absurd hp (by simp)
    · rw [hp2] at hp
      simp only [List.cons.injEq] at hp
      rw [← hp.1]
      rcases hrole with h | ⟨h, _⟩ <;> rw [h] <;> decide
  · rw [hgeq]; rfl
  · rw [hgeq]; rfl
  · rw [hgeq]; rfl

/-- Witness for C20: the first tool group of the sample session is followed by
the user message. -/
theorem buildMessages_toolGroup_separated_witness :
    BuildMessages sampleSession =
      [] ++ toolGroup ["Bash", "Grep", "Edit"] :: [sampleHelloMessage, toolGroup ["Read"]] ∧
    (∀ m rest, [sampleHelloMessage, toolGroup ["Read"]] = m :: rest →
      m.Role ≠ "tool_group") ∧
    (toolGroup ["Bash", "Grep", "Edit"]).Timestamp = "" :=
  ⟨by decide,
   (buildMessages_toolGroup_separated sampleSession [] [sampleHelloMessage, toolGroup ["Read"]]
     (toolGroup ["Bash", "Grep", "Edit"]) (by decide) rfl).2.1,
   (buildMessages_toolGroup_separated sampleSession [] [sampleHelloMessage, toolGroup ["Read"]]
     (toolGroup ["Bash", "Grep", "Edit"]) (by decide) rfl).2.2.2.2⟩

/-! ## The size of the output -/

theorem flushed_length_le (p : List String) : (flushed p).length ≤ 1 := by
  unfold flushed
  split <;> simp

theorem flushed_length_nil : (flushed []).length = 0 := rfl

theorem run_length_le (es : List Record) (p : List String) :
    (run p es).length ≤ es.length + (flushed p).length := by
  induction es generalizing p with
  | nil => rw [run_nil]; simp
  | cons e es ih =>
    cases ho : ownMessage e with
    | some m =>
      rw [run_cons_some _ _ ho]
      have := ih []
      rw [flushed_length_nil] at this
      simp only [List.length_append, List.length_cons]
      omega
    | none =>
      rw [run_cons_none _ _ ho]
      have h1 := ih (p ++ pendingNames e)
      have h2 := flushed_length_le (p ++ pendingNames e)
      simp only [List.length_cons]
      omega

theorem ownMessage_of_isToolOnly_false {e : Record} {m : Message}
    (h : ownMessage e = some m) : isToolOnly e = false := by
  by_contra hc
  have ht : isToolOnly e = true := by simpa using hc
  rw [isToolOnly_own ht] at h
  exact absurd h (by simp)

theorem filter_toolGroup_flushed (p : List String) :
    ((flushed p).filter isToolGroupMessage).length = (flushed p).length := by
  unfold flushed
  split
  · rfl
  · simp [isToolGroupMessage, toolGroup]

theorem flushed_append_length_le (p q : List String) :
    (flushed (p ++ q)).length ≤ (flushed p).length + (flushed q).length := by
  unfold flushed
  cases p with
  | nil => simp
  | cons a l => simp

/-- The tool groups of the output are at most as many as the tool-only records,
plus one when the buffer starts non-empty. -/
theorem run_toolGroups_le (es : List Record) (p : List String) :
    ((run p es).filter isToolGroupMessage).length ≤
      (es.filter isToolOnly).length + (flushed p).length := by
  induction es generalizing p with
  | nil => rw [run_nil, filter_toolGroup_flushed]; simp
  | cons e es ih =>
    cases ho : ownMessage e with
    | some m =>
      have hm : isToolGroupMessage m = false := by
        simp [isToolGroupMessage, ownMessage_role ho]
      have ht : isToolOnly e = false := ownMessage_of_isToolOnly_false ho
      have := ih []
      rw [flushed_length_nil] at this
      rw [run_cons_some _ _ ho, List.filter_append, List.length_append,
        filter_toolGroup_flushed, List.filter_cons_of_neg (by simp [hm]),
        List.filter_cons_of_neg (by simp [ht])]
      omega
    | none =>
      rw [run_cons_none _ _ ho]
      have h1 := ih (p ++ pendingNames e)
      have h2 := flushed_append_length_le p (pendingNames e)
      by_cases ht : isToolOnly e = true
      · rw [List.filter_cons_of_pos ht, List.length_cons]
        have h3 := flushed_length_le (pendingNames e)
        omega
      · have hp : pendingNames e = [] := by rw [pendingNames_eq, if_neg ht]
        rw [List.filter_cons_of_neg ht]
        rw [hp, List.append_nil] at h1 ⊢
        exact h1

theorem filterMap_ownMessage_length (es : List Record) :
    (es.filterMap ownMessage).length = (es.filter isFlushPoint).length := by
  induction es with
  | nil => rfl
  | cons e es ih =>
    cases ho : ownMessage e with
    | some m =>
      rw [List.filterMap_cons, ho, List.filter_cons_of_pos (isFlushPoint_of_own ho),
        List.length_cons, List.length_cons, ih]
    | none =>
      rw [List.filterMap_cons, ho,
        List.filter_cons_of_neg (by simp [isFlushPoint_of_none ho]), ih]

/-- C21: `BuildMessages entries` has at most as many messages as `entries` has
records: its messages that are not tool groups are as many as the records
emitted as a message of their own, its tool groups are at most as many as the
tool-only assistant records, and no record is both; in particular the empty
sequence yields no messages. -/
theorem buildMessages_length_le (entries : List Record) :
    (BuildMessages entries).length ≤ entries.length ∧
    ((BuildMessages entries).filter notToolGroup).length =
      (entries.filter isFlushPoint).length ∧
    ((BuildMessages entries).filter isToolGroupMessage).length ≤
      (entries.filter isToolOnly).length ∧
    (∀ e ∈ entries, ¬ (isFlushPoint e = true ∧ isToolOnly e = true)) ∧
    BuildMessages [] = [] := by
  refine ⟨?_, ?_, ?_, ?_, rfl⟩
  · rw [BuildMessages_eq_run]
    have := run_length_le entries []
    rw [flushed_length_nil] at this
    exact this
  · rw [BuildMessages_eq_run, run_filter_notToolGroup, filterMap_ownMessage_length]
  · rw [BuildMessages_eq_run]
    have := run_toolGroups_le entries []
    rw [flushed_length_nil] at this
    exact this
  · rintro e _ ⟨hf, ht⟩
    rw [isFlushPoint, isToolOnly_own ht] at hf
    exact absurd hf (by decide)

/-- Witness for C21: the sample session has five records and three messages. -/
theorem buildMessages_length_le_witness :
    (BuildMessages sampleSession).length = 3 ∧ sampleSession.length = 5 ∧
    (BuildMessages sampleSession).length ≤ sampleSession.length :=
  ⟨by decide, rfl, (buildMessages_length_le sampleSession).1⟩

/-! ## The tool-result guard of extractUserMessage -/

/-- C22: the `isOnlyToolResults` guard of `extractUserMessage` is redundant:
`extractUserMessage` returns the same result as the variant without the guard
on every record, in particular on every record whose `message.content` is a
list of blocks; equivalently, whenever `isOnlyToolResults blocks` holds, the
block loop accumulates no text and no image. -/
theorem extractUserMessage_guard_redundant :
    (∀ e : Record, extractUserMessage e = extractUserMessageNoGuard e) ∧
    (∀ blocks : List JSON, isOnlyToolResults blocks = true →
      blocks.foldl userBlockStep ([], []) = ([], [])) := by
  have hloop : ∀ blocks : List JSON, isOnlyToolResults blocks = true →
      blocks.foldl userBlockStep ([], []) = ([], []) := by
    intro blocks h
    obtain ⟨ht, hi⟩ := isOnlyToolResults_true h
    rw [foldl_userBlockStep, ht, hi]
    rfl
  refine ⟨?_, hloop⟩
  intro e
  unfold extractUserMessage extractUserMessageNoGuard
  cases hm : mapGet e "message" with
  | obj msg =>
    dsimp only
    cases hc : mapGet msg "content" with
    | arr c =>
      dsimp only
      by_cases ho : isOnlyToolResults c = true
      · rw [if_pos ho, hloop c ho]
        rfl
      · rw [if_neg ho]
    | null => rfl
    | bool x => rfl
    | num x => rfl
    | str x => rfl
    | obj x => rfl
  | null => rfl
  | bool x => rfl
  | num x => rfl
  | str x => rfl
  | arr x => rfl

/-- Witness for C22: a user turn of a tool result and system noise. -/
theorem extractUserMessage_guard_redundant_witness :
    isOnlyToolResults sampleToolResultBlocks = true ∧
    sampleToolResultBlocks.foldl userBlockStep ([], []) = ([], []) ∧
    extractUserMessage (userBlocksRecord sampleToolResultBlocks "t") = none ∧
    extractUserMessageNoGuard (userBlocksRecord sampleToolResultBlocks "t") = none ∧
    extractUserMessage (userBlocksRecord sampleUserBlocks "t") =
      extractUserMessageNoGuard (userBlocksRecord sampleUserBlocks "t") :=
  ⟨by decide,
   extractUserMessage_guard_redundant.2 sampleToolResultBlocks (by decide),
   by decide, by decide,
   extractUserMessage_guard_redundant.1 (userBlocksRecord sampleUserBlocks "t")⟩

end Shiplog
